import Mathlib

/-!
Verification development for a headless voxel-game client written in
JavaScript.  The definitions below are shallow embeddings of the source
files:

* `src/protocol/varint.js`   — variable-length integer codec,
* `src/chunk-parser.js`      — chunk payload decoder (`ChunkParser`),
* `src/world-advanced.js`    — the world cache (`WorldAdvanced`),
* `src/pathfinder-advanced.js` — the A* pathfinder (`AdvancedPathfinder`),
* `src/movement-advanced.js` — the motion controller (`MovementAdvanced`),
* `src/protocol/connection.js` — the framed transport (`Connection`).

JavaScript `Map` objects are modelled as association lists with
insert-replace semantics (the source keys maps by strings such as
`"x,z"` and `"x,y,z"` built from integers; these are in bijection with
the integer tuples used here, so tuples are used as keys directly).
JavaScript `Set` objects over such keys are modelled as duplicate-free
lists.
Numbers are modelled as exact integers / rationals / reals as
appropriate; machine floating point is not modelled.
-/

set_option maxHeartbeats 1000000

namespace MCBot

/-! ## Association-list maps (model of JavaScript `Map`) -/

/-- First value bound to key `k`, like `Map.get` (`undefined` ↦ `none`). -/
def mapFind? {K V : Type} [DecidableEq K] (l : List (K × V)) (k : K) : Option V :=
  match l with
  | [] => none
  | p :: rest => if p.1 = k then some p.2 else mapFind? rest k

/-- Remove every binding of key `k`. -/
def mapErase {K V : Type} [DecidableEq K] (k : K) (l : List (K × V)) : List (K × V) :=
  match l with
  | [] => []
  | p :: rest => if p.1 = k then mapErase k rest else p :: mapErase k rest

/-- `Map.set`: bind `k` to `v`, replacing any previous binding. -/
def mapSet {K V : Type} [DecidableEq K] (k : K) (v : V) (l : List (K × V)) : List (K × V) :=
  (k, v) :: mapErase k l

/-- Membership of a key, like `Map.has`. -/
def mapHas {K V : Type} [DecidableEq K] (l : List (K × V)) (k : K) : Bool :=
  (mapFind? l k).isSome

/-- `Set.add`: JavaScript `Set` objects are modelled as duplicate-free
lists (iteration order is never observable in the modelled code). -/
def setAdd {α : Type} [DecidableEq α] (x : α) (l : List α) : List α :=
  if x ∈ l then l else x :: l

theorem mapFind?_eq_none_iff {K V : Type} [DecidableEq K] (l : List (K × V)) (k : K) :
    mapFind? l k = none ↔ ∀ p ∈ l, p.1 ≠ k := by
  induction l with
  | nil => simp [mapFind?]
  | cons p rest ih =>
    by_cases h : p.1 = k
    · simp [mapFind?, h]
    · simp [mapFind?, h, ih]

theorem mapFind?_erase_self {K V : Type} [DecidableEq K] (k : K) (l : List (K × V)) :
    mapFind? (mapErase k l) k = none := by
  induction l with
  | nil => rfl
  | cons p rest ih =>
    by_cases hpk : p.1 = k
    · simpa [mapErase, hpk] using ih
    · simpa [mapErase, hpk, mapFind?] using ih

theorem mapFind?_erase_ne {K V : Type} [DecidableEq K] (k k' : K) (l : List (K × V))
    (h : k' ≠ k) : mapFind? (mapErase k l) k' = mapFind? l k' := by
  induction l with
  | nil => rfl
  | cons p rest ih =>
    by_cases hpk : p.1 = k
    · have hpk' : p.1 ≠ k' := fun he => h (he ▸ hpk)
      simpa [mapErase, hpk, mapFind?, hpk', Ne.symm h] using ih
    · by_cases hpk' : p.1 = k'
      · simp [mapErase, hpk, mapFind?, hpk', h]
      · simpa [mapErase, hpk, mapFind?, hpk'] using ih

theorem mapFind?_erase {K V : Type} [DecidableEq K] (k k' : K) (l : List (K × V)) :
    mapFind? (mapErase k l) k' = if k' = k then none else mapFind? l k' := by
  by_cases hk : k' = k
  · simp [hk, mapFind?_erase_self]
  · simp [hk, mapFind?_erase_ne k k' l hk]

theorem mapFind?_set {K V : Type} [DecidableEq K] (k k' : K) (v : V) (l : List (K × V)) :
    mapFind? (mapSet k v l) k' = if k' = k then some v else mapFind? l k' := by
  by_cases hk : k' = k
  · simp [mapSet, mapFind?, hk]
  · have hk2 : k ≠ k' := fun h => hk h.symm
    simp [mapSet, mapFind?, hk2, hk, mapFind?_erase]

theorem mapErase_of_find?_none {K V : Type} [DecidableEq K] (k : K) (l : List (K × V))
    (h : mapFind? l k = none) : mapErase k l = l := by
  induction l with
  | nil => rfl
  | cons p rest ih =>
    by_cases hpk : p.1 = k
    · simp [mapFind?, hpk] at h
    · simp [mapFind?, hpk] at h
      simp [mapErase, hpk] at *
      exact ih h

/-! ## Varint codec (`src/protocol/varint.js`)

`SEGMENT_BITS = 0x7F`, `CONTINUE_BIT = 0x80`.  Buffers are modelled as
`List ℕ` of byte values (0..255).  `readVarInt` throws two errors in the
source (`VarInt is too short`, `VarInt is too big`); these become an
`Except` result. -/

inductive VarIntErr : Type where
  /-- `VarInt is too short`: buffer exhausted mid-value. -/
  | tooShort : VarIntErr
  /-- `VarInt is too big`: more than 5 bytes of continuation. -/
  | tooBig : VarIntErr
  deriving DecidableEq, Repr

instance {ε α : Type} [DecidableEq ε] [DecidableEq α] : DecidableEq (Except ε α) := fun a b =>
  match a, b with
  | .error e, .error f =>
    if h : e = f then .isTrue (by rw [h]) else .isFalse (by simp [h])
  | .error _, .ok _ => .isFalse (by simp)
  | .ok _, .error _ => .isFalse (by simp)
  | .ok x, .ok y =>
    if h : x = y then .isTrue (by rw [h]) else .isFalse (by simp [h])

/-- Byte fetched by `buffer[offset]` **after** the `offset >= length` guard:
a negative index yields JavaScript `undefined`, which the bitwise
operations coerce to `0`. -/
def bufGet (buffer : List ℕ) (offset : ℤ) : ℕ :=
  if 0 ≤ offset then buffer.getD offset.toNat 0 else 0

/-- Loop of `readVarInt`.  `value` is the unsigned 32-bit accumulator (the
JavaScript `|=` operates on 32-bit two's-complement words, i.e. modulo
`2^32` on the unsigned representation).  Returns the accumulator and the
final `position`.  The structural `fuel` argument only bounds the
recursion for Lean: from `position` the loop runs at most
`⌈(32 - position) / 7⌉ ≤ 5` more iterations before the `position ≥ 32`
guard fires, so with the fuel the callers supply the `0` case is
unreachable and the function agrees with the source loop exactly. -/
def readVarIntAux (buffer : List ℕ) : ℕ → ℤ → ℕ → ℕ → Except VarIntErr (ℕ × ℕ)
  | 0, _, _, _ => .error .tooBig
  | fuel + 1, offset, position, value =>
    if offset ≥ (buffer.length : ℤ) then .error .tooShort
    else
      let currentByte := bufGet buffer offset
      let value := value ||| ((currentByte &&& 0x7F) <<< position) % 2 ^ 32
      if currentByte &&& 0x80 = 0 then .ok (value, position)
      else if 32 ≤ position + 7 then .error .tooBig
      else readVarIntAux buffer fuel (offset + 1) (position + 7) value

/-- `readVarInt(buffer, offset)`: returns `{value, bytesRead}` with `value`
reinterpreted as a signed 32-bit integer. -/
def readVarInt (buffer : List ℕ) (offset : ℤ) : Except VarIntErr (ℤ × ℕ) :=
  match readVarIntAux buffer 5 offset 0 0 with
  | .error e => .error e
  | .ok (v, position) =>
      let value : ℤ := if (v : ℤ) > 0x7FFFFFFF then (v : ℤ) - 0x100000000 else (v : ℤ)
      .ok (value, position / 7 + 1)

/-- Encoding loop of `writeVarInt`, on the (nonnegative, `< 2^32`) working
value.  For such values the source tests and operations are arithmetic:
`(value & ~0x7F) === 0` iff `value < 0x80`; `(value & 0x7F) | 0x80` equals
`value % 0x80 + 0x80`; `value >>>= 7` is `value / 0x80`. -/
def writeVarIntNat (value : ℕ) : List ℕ :=
  if value < 0x80 then [value]
  else (value % 0x80 + 0x80) :: writeVarIntNat (value / 0x80)
  termination_by value
  decreasing_by exact Nat.div_lt_self (by omega) (by omega)

/-- `writeVarInt(value)`: negative inputs are converted via `>>> 0` to the
32-bit two's-complement unsigned representation. -/
def writeVarInt (value : ℤ) : List ℕ :=
  writeVarIntNat (if value < 0 then (value % 2 ^ 32).toNat else value.toNat)

/-- `varIntLength(value)` size table from the source. -/
def varIntLength (value : ℤ) : ℕ :=
  let v : ℤ := if value < 0 then value % 2 ^ 32 else value
  if v < 0x80 then 1
  else if v < 0x4000 then 2
  else if v < 0x200000 then 3
  else if v < 0x10000000 then 4
  else 5

/-! ### Varint round-trip (claim C1) -/

theorem writeVarIntNat_ne_nil (u : ℕ) : writeVarIntNat u ≠ [] := by
  rw [writeVarIntNat]
  split <;> simp

theorem writeVarIntNat_length_pos (u : ℕ) : 1 ≤ (writeVarIntNat u).length := by
  have := writeVarIntNat_ne_nil u
  cases h : writeVarIntNat u with
  | nil => exact absurd h this
  | cons a l => simp [h]

/-- Byte length of the encoding, matching the size table. -/
theorem writeVarIntNat_length (u : ℕ) (h : u < 2 ^ 32) :
    (writeVarIntNat u).length =
      if u < 0x80 then 1 else if u < 0x4000 then 2 else if u < 0x200000 then 3
      else if u < 0x10000000 then 4 else 5 := by
  by_cases h1 : u < 0x80
  · rw [writeVarIntNat, if_pos h1, if_pos h1]
    rfl
  · rw [writeVarIntNat, if_neg h1, if_neg h1]
    by_cases h2 : u < 0x4000
    · have hd : u / 0x80 < 0x80 := by omega
      rw [writeVarIntNat, if_pos hd, if_pos h2]
      rfl
    · rw [if_neg h2]
      have g2 : ¬ u / 0x80 < 0x80 := by omega
      rw [writeVarIntNat, if_neg g2]
      by_cases h3 : u < 0x200000
      · have hd : u / 0x80 / 0x80 < 0x80 := by omega
        rw [writeVarIntNat, if_pos hd, if_pos h3]
        rfl
      · rw [if_neg h3]
        have g3 : ¬ u / 0x80 / 0x80 < 0x80 := by omega
        rw [writeVarIntNat, if_neg g3]
        by_cases h4 : u < 0x10000000
        · have hd : u / 0x80 / 0x80 / 0x80 < 0x80 := by omega
          rw [writeVarIntNat, if_pos hd, if_pos h4]
          rfl
        · rw [if_neg h4]
          have g4 : ¬ u / 0x80 / 0x80 / 0x80 < 0x80 := by omega
          rw [writeVarIntNat, if_neg g4]
          have hd : u / 0x80 / 0x80 / 0x80 / 0x80 < 0x80 := by omega
          rw [writeVarIntNat, if_pos hd]
          rfl

/-- Bitwise or of values with disjoint bit ranges is addition. -/
theorem lor_mul_two_pow_eq_add (n : ℕ) :
    ∀ a b : ℕ, a < 2 ^ n → a ||| b * 2 ^ n = a + b * 2 ^ n := by
  induction n with
  | zero =>
    intro a b ha
    interval_cases a
    simp
  | succ n ih =>
    intro a b ha
    have hbit : Nat.bit (decide (a % 2 = 1)) (a >>> 1) = a :=
      Nat.bit_decide_mod_two_eq_one_shiftRight_one a
    have hb : b * 2 ^ (n + 1) = Nat.bit false (b * 2 ^ n) := by
      simp [Nat.bit_val, pow_succ]
      ring
    have hhalf : a >>> 1 = a / 2 := by
      simp [Nat.shiftRight_eq_div_pow]
    have hlt : a >>> 1 < 2 ^ n := by
      rw [hhalf]
      have := pow_succ 2 n
      omega
    calc a ||| b * 2 ^ (n + 1)
        = Nat.bit (decide (a % 2 = 1)) (a >>> 1) ||| Nat.bit false (b * 2 ^ n) := by
          rw [hbit, hb]
      _ = Nat.bit (decide (a % 2 = 1) || false) ((a >>> 1) ||| b * 2 ^ n) :=
          Nat.lor_bit _ _ _ _
      _ = Nat.bit (decide (a % 2 = 1)) ((a >>> 1) + b * 2 ^ n) := by
          rw [Bool.or_false, ih _ b hlt]
      _ = a + b * 2 ^ (n + 1) := by
          rw [Nat.bit_val, hhalf]
          have h2 : (decide (a % 2 = 1)).toNat = a % 2 := by
            rcases Nat.mod_two_eq_zero_or_one a with h | h <;> simp [h]
          rw [h2]
          have hmod2 : 2 * (a / 2) + a % 2 = a := by omega
          calc 2 * (a / 2 + b * 2 ^ n) + a % 2
              = (2 * (a / 2) + a % 2) + b * (2 ^ n * 2) := by ring
            _ = a + b * 2 ^ (n + 1) := by rw [hmod2, pow_succ]

theorem getD_of_drop (B : List ℕ) (o x : ℕ) (l : List ℕ) (h : B.drop o = x :: l) :
    B.getD o 0 = x := by
  induction B generalizing o with
  | nil => simp at h
  | cons y ys ih =>
    cases o with
    | zero => simp at h; simp [h.1]
    | succ o => simpa using ih o (by simpa using h)

theorem lt_length_of_drop (B : List ℕ) (o x : ℕ) (l : List ℕ) (h : B.drop o = x :: l) :
    o < B.length := by
  by_contra hle
  rw [List.drop_eq_nil_of_le (by omega)] at h
  exact List.noConfusion h

/-- Main loop invariant: reading back an encoding placed at offset `o`
accumulates exactly the encoded value shifted into position. -/
theorem readVarIntAux_writeVarIntNat (u : ℕ) :
    ∀ (k value o : ℕ) (B rest : List ℕ),
    B.drop o = writeVarIntNat u ++ rest →
    k ≤ 4 → u < 2 ^ (32 - 7 * k) → value < 2 ^ (7 * k) →
    readVarIntAux B (5 - k) (o : ℤ) (7 * k) value =
      .ok (value + u * 2 ^ (7 * k), 7 * (k + (writeVarIntNat u).length - 1)) := by
  induction u using Nat.strong_induction_on with
  | _ u IH =>
    intro k value o B rest hdrop hk hu hv
    have hfuel : 5 - k = (4 - k) + 1 := by omega
    rw [hfuel]
    by_cases hcase : u < 0x80
    · rw [writeVarIntNat, if_pos hcase] at hdrop
      simp only [List.cons_append] at hdrop
      have holen : o < B.length := lt_length_of_drop B o u _ hdrop
      have hbyte : bufGet B (o : ℤ) = u := by
        rw [bufGet, if_pos (by positivity), Int.toNat_natCast]
        exact getD_of_drop B o u _ hdrop
      rw [readVarIntAux, if_neg (by exact_mod_cast not_le.mpr holen)]
      simp only [hbyte]
      have h127 : u &&& 0x7F = u := by
        have := Nat.and_pow_two_sub_one_eq_mod u 7
        norm_num at this
        omega
      have h128 : u &&& 0x80 = 0 := by
        have := Nat.and_two_pow u 7
        rw [Nat.testBit_lt_two_pow (lt_of_lt_of_eq hcase (by norm_num))] at this
        norm_num at this
        exact this
      have hshift : (u <<< (7 * k)) % 2 ^ 32 = u * 2 ^ (7 * k) := by
        rw [Nat.shiftLeft_eq]
        apply Nat.mod_eq_of_lt
        calc u * 2 ^ (7 * k) < 2 ^ (32 - 7 * k) * 2 ^ (7 * k) :=
              mul_lt_mul_of_pos_right hu (by positivity)
          _ = 2 ^ (32 - 7 * k + 7 * k) := (pow_add 2 _ _).symm
          _ = 2 ^ 32 := by congr 1; omega
      rw [h127, h128, hshift, if_pos rfl, lor_mul_two_pow_eq_add _ _ _ hv]
      have hlen : (writeVarIntNat u).length = 1 := by
        rw [writeVarIntNat, if_pos hcase]
        rfl
      rw [hlen]
      norm_num
    · rw [writeVarIntNat, if_neg hcase] at hdrop
      simp only [List.cons_append] at hdrop
      have holen : o < B.length := lt_length_of_drop B o _ _ hdrop
      have hbyte : bufGet B (o : ℤ) = u % 0x80 + 0x80 := by
        rw [bufGet, if_pos (by positivity), Int.toNat_natCast]
        exact getD_of_drop B o _ _ hdrop
      have hk3 : k ≤ 3 := by
        rcases Nat.lt_or_ge k 4 with h | h
        · omega
        · have : k = 4 := by omega
          subst this
          norm_num at hu
          omega
      rw [readVarIntAux, if_neg (by exact_mod_cast not_le.mpr holen)]
      simp only [hbyte]
      have h127 : (u % 0x80 + 0x80) &&& 0x7F = u % 0x80 := by
        have := Nat.and_pow_two_sub_one_eq_mod (u % 0x80 + 0x80) 7
        norm_num at this
        omega
      have h128 : ¬ ((u % 0x80 + 0x80) &&& 0x80 = 0) := by
        have ht : (u % 0x80 + 0x80).testBit 7 = true := by
          rw [Nat.testBit_to_div_mod]
          have hdm : (u % 0x80 + 0x80) / 2 ^ 7 % 2 = 1 := by omega
          simp [hdm]
        have := Nat.and_two_pow (u % 0x80 + 0x80) 7
        rw [ht] at this
        norm_num at this
        omega
      have hshift : ((u % 0x80) <<< (7 * k)) % 2 ^ 32 = (u % 0x80) * 2 ^ (7 * k) := by
        rw [Nat.shiftLeft_eq]
        apply Nat.mod_eq_of_lt
        calc (u % 0x80) * 2 ^ (7 * k) < 2 ^ 7 * 2 ^ (7 * k) :=
              mul_lt_mul_of_pos_right (by omega) (by positivity)
          _ = 2 ^ (7 + 7 * k) := (pow_add 2 _ _).symm
          _ ≤ 2 ^ 32 := Nat.pow_le_pow_right (by norm_num) (by omega)
      rw [h127, hshift, if_neg h128, if_neg (by omega : ¬ 32 ≤ 7 * k + 7),
        lor_mul_two_pow_eq_add _ _ _ hv]
      have hdrop1 : B.drop (o + 1) = writeVarIntNat (u / 0x80) ++ rest := by
        rw [← List.tail_drop, hdrop]
        rfl
      have hvalue1 : value + u % 0x80 * 2 ^ (7 * k) < 2 ^ (7 * (k + 1)) := by
        have hm : u % 0x80 * 2 ^ (7 * k) ≤ 127 * 2 ^ (7 * k) :=
          Nat.mul_le_mul_right _ (by omega)
        have hp : 2 ^ (7 * (k + 1)) = 128 * 2 ^ (7 * k) := by
          rw [show 7 * (k + 1) = 7 + 7 * k by omega, pow_add]
          norm_num
        omega
      have hu1 : u / 0x80 < 2 ^ (32 - 7 * (k + 1)) := by
        rw [Nat.div_lt_iff_lt_mul (by norm_num : 0 < 0x80)]
        calc u < 2 ^ (32 - 7 * k) := hu
          _ = 2 ^ (32 - 7 * (k + 1)) * 0x80 := by
              rw [show (0x80 : ℕ) = 2 ^ 7 by norm_num, ← pow_add]
              congr 1
              omega
      have hrec := IH (u / 0x80) (Nat.div_lt_self (by omega) (by norm_num))
        (k + 1) (value + u % 0x80 * 2 ^ (7 * k)) (o + 1) B rest hdrop1
        (by omega) hu1 hvalue1
      rw [show 5 - (k + 1) = 4 - k by omega] at hrec
      have hco : ((o : ℤ) + 1) = ((o + 1 : ℕ) : ℤ) := by push_cast; ring
      rw [show 7 * k + 7 = 7 * (k + 1) by omega, hco, hrec]
      have hval : value + u % 0x80 * 2 ^ (7 * k) + u / 0x80 * 2 ^ (7 * (k + 1)) =
          value + u * 2 ^ (7 * k) := by
        rw [show 7 * (k + 1) = 7 * k + 7 by omega, pow_add]
        have : u % 0x80 * 2 ^ (7 * k) + u / 0x80 * (2 ^ (7 * k) * 2 ^ 7) =
            (u % 0x80 + u / 0x80 * 2 ^ 7) * 2 ^ (7 * k) := by ring
        rw [Nat.add_assoc, this]
        have hmd : u % 0x80 + u / 0x80 * 2 ^ 7 = u := by
          have := Nat.mod_add_div u 0x80
          norm_num at this ⊢
          omega
        rw [hmd]
      have hlen : (writeVarIntNat u).length = (writeVarIntNat (u / 0x80)).length + 1 := by
        rw [writeVarIntNat, if_neg hcase]
        simp
      have hlp := writeVarIntNat_length_pos (u / 0x80)
      rw [hval, hlen]
      congr 2
      omega

/-- C1.  For every 32-bit signed integer `v`, `readVarInt (writeVarInt v) 0`
returns value `v` and `bytesRead` equal to the encoded length, which lies
in `1..5` and matches the `varIntLength` size table; negative inputs are
encoded via their 32-bit two's-complement unsigned representation. -/
theorem varint_roundtrip (v : ℤ) (h1 : -(2 ^ 31) ≤ v) (h2 : v < 2 ^ 31) :
    readVarInt (writeVarInt v) 0 = .ok (v, (writeVarInt v).length) ∧
    1 ≤ (writeVarInt v).length ∧ (writeVarInt v).length ≤ 5 ∧
    (writeVarInt v).length = varIntLength v := by
  set u : ℕ := if v < 0 then (v % 2 ^ 32).toNat else v.toNat with hu
  have hwv : writeVarInt v = writeVarIntNat u := by rw [writeVarInt]
  have huv : (u : ℤ) = if v < 0 then v + 2 ^ 32 else v := by
    rw [hu]
    by_cases hneg : v < 0
    · rw [if_pos hneg, if_pos hneg, Int.toNat_of_nonneg (by omega)]
      omega
    · rw [if_neg hneg, if_neg hneg, Int.toNat_of_nonneg (by omega)]
  have hu32 : u < 2 ^ 32 := by
    have hz : (u : ℤ) < 2 ^ 32 := by rw [huv]; split_ifs <;> omega
    exact_mod_cast hz
  have haux := readVarIntAux_writeVarIntNat u 0 0 0 (writeVarIntNat u) []
      (by simp) (by norm_num) (by simpa using hu32) (by norm_num)
  simp only [Nat.mul_zero, Nat.zero_add, pow_zero, Nat.mul_one, Nat.cast_zero,
    Nat.sub_zero] at haux
  have hlen1 : 1 ≤ (writeVarIntNat u).length := writeVarIntNat_length_pos u
  refine ⟨?_, by rw [hwv]; exact hlen1, ?_, ?_⟩
  · rw [hwv, readVarInt, haux]
    have hsigned : (if ((u : ℤ)) > 0x7FFFFFFF then (u : ℤ) - 0x100000000 else (u : ℤ)) = v := by
      rw [huv]
      split_ifs <;> omega
    have hbytes : 7 * ((writeVarIntNat u).length - 1) / 7 + 1 = (writeVarIntNat u).length := by
      rw [Nat.mul_div_cancel_left _ (by norm_num : 0 < 7)]
      omega
    simp only [hsigned, hbytes]
  · rw [hwv, writeVarIntNat_length u hu32]
    split_ifs <;> norm_num
  · rw [hwv, writeVarIntNat_length u hu32]
    simp only [varIntLength]
    have hsw : (if v < 0 then v % 2 ^ 32 else v) = (u : ℤ) := by
      rw [huv]
      split_ifs with h
      · omega
      · rfl
    rw [hsw]
    split_ifs <;> omega

/-- Witness for C1 at `v = -1` (encoded as `0xFFFFFFFF`, 5 bytes). -/
theorem varint_roundtrip_witness :
    (-(2 ^ 31) ≤ (-1 : ℤ) ∧ (-1 : ℤ) < 2 ^ 31) ∧
    (readVarInt (writeVarInt (-1)) 0 = .ok (-1, (writeVarInt (-1)).length) ∧
      1 ≤ (writeVarInt (-1 : ℤ)).length ∧ (writeVarInt (-1 : ℤ)).length ≤ 5 ∧
      (writeVarInt (-1 : ℤ)).length = varIntLength (-1)) :=
  ⟨⟨by norm_num, by norm_num⟩, varint_roundtrip (-1) (by norm_num) (by norm_num)⟩

/-! ## Chunk parser (`src/chunk-parser.js`, class `ChunkParser`)

Byte-buffer reads are modelled as `Option`-valued functions: a JavaScript
`Buffer.readXxx` beyond the bounds (or at a negative offset) throws a
`RangeError`, which every caller catches (`try/catch` returning
`null`/`-1`). -/

/-- `data.readUInt8(offset)`. -/
def readUInt8 (data : List ℕ) (offset : ℤ) : Option ℕ :=
  if 0 ≤ offset ∧ offset + 1 ≤ (data.length : ℤ) then some (data.getD offset.toNat 0)
  else none

/-- `data.readUInt16BE(offset)`. -/
def readUInt16BE (data : List ℕ) (offset : ℤ) : Option ℕ :=
  if 0 ≤ offset ∧ offset + 2 ≤ (data.length : ℤ) then
    some (data.getD offset.toNat 0 * 256 + data.getD (offset.toNat + 1) 0)
  else none

/-- Two's-complement reinterpretation of a `w`-bit unsigned value. -/
def toSigned (w : ℕ) (u : ℕ) : ℤ :=
  if (u : ℤ) ≥ 2 ^ (w - 1) then (u : ℤ) - 2 ^ w else (u : ℤ)

/-- `data.readInt16BE(offset)`. -/
def readInt16BE (data : List ℕ) (offset : ℤ) : Option ℤ :=
  (readUInt16BE data offset).map (toSigned 16)

/-- `data.readInt32BE(offset)`. -/
def readInt32BE (data : List ℕ) (offset : ℤ) : Option ℤ :=
  if 0 ≤ offset ∧ offset + 4 ≤ (data.length : ℤ) then
    some (toSigned 32 (((data.getD offset.toNat 0 * 256 + data.getD (offset.toNat + 1) 0) * 256 +
      data.getD (offset.toNat + 2) 0) * 256 + data.getD (offset.toNat + 3) 0))
  else none

/-- `data.readBigUInt64BE(offset)`, total form: every use below is guarded
by an explicit length check in the source, so the default is never taken
on reachable inputs. -/
def readBigUInt64BE (data : List ℕ) (offset : ℤ) : ℕ :=
  (List.range 8).foldl (fun acc i => acc * 256 + data.getD (offset.toNat + i) 0) 0

/-- Per-state-id property record (`{solid, transparent, climbable, fluid}`). -/
structure BlockProps where
  solid : Bool
  transparent : Bool
  climbable : Bool
  fluid : Bool
  deriving DecidableEq, Repr

/-- `ChunkParser.getBlockProperties`.  The constructor loop fills ids
`0..999` with `{solid: id ≠ 0, transparent: false, climbable: false,
fluid: false}` (`nonSolid = [0]`), and lookups of other ids fall back to
`{solid: true, transparent: false, climbable: false, fluid: false}`; id
`0` is special-cased before the map lookup.  For every id other than `0`
the map entry and the fallback coincide, so this closed form is exact. -/
def getBlockProperties (blockStateId : ℤ) : BlockProps :=
  if blockStateId = 0 then ⟨false, true, false, false⟩
  else ⟨true, false, false, false⟩

/-- Result of `readPalettedContainer`. -/
structure PalettedContainer where
  palette : List ℤ
  data : List ℤ
  nextOffset : ℤ
  deriving DecidableEq, Repr

/-- Result of `parseSection` (field `nextOffset` included as in the source). -/
structure ParsedSection where
  blockCount : ℤ
  blockStates : List ℤ
  palette : List ℤ
  nextOffset : ℤ
  deriving DecidableEq, Repr

/-- Result of `parseChunkData` (`heightmaps` is always `null` and
`blockEntities` always `[]` in the source, so only `sections` is kept). -/
structure ParsedChunk where
  sections : List ParsedSection
  deriving DecidableEq, Repr

/-- `ChunkParser.unpackPalettedData`: entries are packed low-bit first,
`⌊64 / bitsPerEntry⌋` per word; `result` is pre-filled with `0` and only
the first `longCount · entriesPerLong` slots are written; out-of-range
palette indices (and palette value `0`) give `0` via `palette[i] || 0`. -/
def unpackPalettedData (data : List ℕ) (offset : ℤ) (longCount : ℤ) (bitsPerEntry : ℕ)
    (palette : List ℤ) (expectedEntries : ℕ) : List ℤ :=
  let entriesPerLong : ℕ := 64 / bitsPerEntry
  (List.range expectedEntries).map (fun (idx : ℕ) =>
    if (idx : ℤ) < longCount * (entriesPerLong : ℤ) then
      let i : ℕ := idx / entriesPerLong
      let j : ℕ := idx % entriesPerLong
      let long := readBigUInt64BE data (offset + 8 * (i : ℤ))
      let paletteIndex : ℕ := (long >>> (bitsPerEntry * j)) &&& (2 ^ bitsPerEntry - 1)
      match palette.getD paletteIndex 0 with
      | 0 => 0
      | v => v
    else 0)

/-- `ChunkParser.unpackDirectData`: as above but the masked value is the
state id itself. -/
def unpackDirectData (data : List ℕ) (offset : ℤ) (longCount : ℤ) (bitsPerEntry : ℕ)
    (expectedEntries : ℕ) : List ℤ :=
  let entriesPerLong : ℕ := 64 / bitsPerEntry
  (List.range expectedEntries).map (fun (idx : ℕ) =>
    if (idx : ℤ) < longCount * (entriesPerLong : ℤ) then
      let i : ℕ := idx / entriesPerLong
      let j : ℕ := idx % entriesPerLong
      let long := readBigUInt64BE data (offset + 8 * (i : ℤ))
      (((long >>> (bitsPerEntry * j)) &&& (2 ^ bitsPerEntry - 1) : ℕ) : ℤ)
    else 0)

/-- Palette-reading loop of the indirect branch (`count` varints). -/
def readPaletteEntries (data : List ℕ) (offset : ℤ) : ℕ → Except VarIntErr (List ℤ × ℤ)
  | 0 => .ok ([], offset)
  | n + 1 =>
    match readVarInt data offset with
    | .error e => .error e
    | .ok (v, bytes) =>
      match readPaletteEntries data (offset + bytes) n with
      | .error e => .error e
      | .ok (vs, off2) => .ok (v :: vs, off2)

/-- `ChunkParser.readPalettedContainer(data, offset, expectedEntries)`. -/
def readPalettedContainer (data : List ℕ) (offset0 : ℤ) (expectedEntries : ℕ) :
    Option PalettedContainer :=
  if offset0 ≥ (data.length : ℤ) then none
  else
    match readUInt8 data offset0 with
    | none => none
    | some bitsPerEntry =>
      let offset := offset0 + 1
      if bitsPerEntry = 0 then
        -- single value palette
        match readVarInt data offset with
        | .error _ => none
        | .ok (v, n1) =>
          match readVarInt data (offset + n1) with
          | .error _ => none
          | .ok (dataLongs, n2) =>
            some ⟨[v], List.replicate expectedEntries v, offset + n1 + n2 + dataLongs * 8⟩
      else if bitsPerEntry ≤ 8 then
        -- indirect palette
        match readVarInt data offset with
        | .error _ => none
        | .ok (palLen, n1) =>
          match readPaletteEntries data (offset + n1) palLen.toNat with
          | .error _ => none
          | .ok (palette, off2) =>
            match readVarInt data off2 with
            | .error _ => none
            | .ok (dataLongs, n2) =>
              if off2 + n2 + dataLongs * 8 > (data.length : ℤ) then none
              else
                some ⟨palette,
                  unpackPalettedData data (off2 + n2) dataLongs bitsPerEntry palette expectedEntries,
                  off2 + n2 + dataLongs * 8⟩
      else
        -- direct palette
        match readVarInt data offset with
        | .error _ => none
        | .ok (dataLongs, n2) =>
          if offset + n2 + dataLongs * 8 > (data.length : ℤ) then none
          else
            some ⟨[], unpackDirectData data (offset + n2) dataLongs bitsPerEntry expectedEntries,
              offset + n2 + dataLongs * 8⟩

/-- `ChunkParser.parseSection(data, offset)`. -/
def parseSection (data : List ℕ) (offset : ℤ) : Option ParsedSection :=
  if offset + 3 > (data.length : ℤ) then none
  else
    match readInt16BE data offset with
    | none => none
    | some blockCount =>
      match readPalettedContainer data (offset + 2) 4096 with
      | none => none
      | some blockStates =>
        match readPalettedContainer data blockStates.nextOffset 64 with
        | none => none
        | some biomes =>
          some ⟨blockCount, blockStates.data, blockStates.palette, biomes.nextOffset⟩

/-- Loop of `ChunkParser.parseSections`: sections are read while
`offset < data.length` and fewer than 24 sections have been produced. -/
def parseSectionsLoop (data : List ℕ) (offset : ℤ) : ℕ → List ParsedSection
  | 0 => []
  | remaining + 1 =>
    if offset < (data.length : ℤ) then
      match parseSection data offset with
      | none => []
      | some s => s :: parseSectionsLoop data s.nextOffset remaining
    else []

/-- `ChunkParser.parseSections(data)`. -/
def parseSections (data : List ℕ) : List ParsedSection :=
  parseSectionsLoop data 0 24

/-! NBT skipping.  The two mutually recursive source functions
(`skipNBTCompoundContents`, `skipNBTPayload`) terminate on well-formed
input by offset progress; the source additionally bounds each compound's
loop at `maxIterations = 10000` but can iterate long (or, for crafted
negative array lengths, indefinitely) elsewhere.  The model threads an
explicit `fuel` counter decremented at every recursive call;
`parseChunkData` supplies `data.length + 10000`.  On inputs where this
budget is insufficient the model fails where the source may continue;
none of the theorems below depend on the budget. -/

/-- Call descriptor for the three mutually recursive NBT-skipping
functions of `ChunkParser` (`skipNBTCompoundContents`'s loop, the
list-element loop inside tag 9, and `skipNBTPayload`); the mutual
recursion is expressed as one function `skipNBTGo` structural in `fuel`
so that it evaluates, with one wrapper per source function below. -/
inductive SkipCall where
  | compound (offset : ℤ) (iterations : ℕ)
  | listElems (offset : ℤ) (listType : ℕ) (n : ℕ)
  | payload (offset : ℤ) (tagType : ℕ)

def skipNBTGo (data : List ℕ) : ℕ → SkipCall → Option ℤ
  | fuel, .compound offset iterations =>
    match fuel with
    | 0 => none
    | f + 1 =>
      if offset < (data.length : ℤ) ∧ iterations < 10000 then
        match readUInt8 data offset with
        | none => none
        | some tagType =>
          if tagType = 0 then some (offset + 1)
          else if offset + 1 + 2 > (data.length : ℤ) then none
          else
            match readUInt16BE data (offset + 1) with
            | none => none
            | some nameLen =>
              if offset + 3 + (nameLen : ℤ) > (data.length : ℤ) then none
              else
                match skipNBTGo data f (.payload (offset + 3 + (nameLen : ℤ)) tagType) with
                | none => none
                | some off2 => skipNBTGo data f (.compound off2 (iterations + 1))
      else none
  | fuel, .listElems offset listType n =>
    match n with
    | 0 => some offset
    | n + 1 =>
      match fuel with
      | 0 => none
      | f + 1 =>
        match skipNBTGo data f (.payload offset listType) with
        | none => none
        | some off2 => skipNBTGo data f (.listElems off2 listType n)
  | fuel, .payload offset tagType =>
    match fuel with
    | 0 => none
    | f + 1 =>
      if tagType = 1 then some (offset + 1)
      else if tagType = 2 then some (offset + 2)
      else if tagType = 3 then some (offset + 4)
      else if tagType = 4 then some (offset + 8)
      else if tagType = 5 then some (offset + 4)
      else if tagType = 6 then some (offset + 8)
      else if tagType = 7 then
        if offset + 4 > (data.length : ℤ) then none
        else
          match readInt32BE data offset with
          | none => none
          | some baLen => some (offset + 4 + baLen)
      else if tagType = 8 then
        if offset + 2 > (data.length : ℤ) then none
        else
          match readUInt16BE data offset with
          | none => none
          | some sLen => some (offset + 2 + (sLen : ℤ))
      else if tagType = 9 then
        if offset + 5 > (data.length : ℤ) then none
        else
          match readUInt8 data offset, readInt32BE data (offset + 1) with
          | some listType, some listLen =>
            skipNBTGo data f (.listElems (offset + 5) listType listLen.toNat)
          | _, _ => none
      else if tagType = 10 then skipNBTGo data f (.compound offset 0)
      else if tagType = 11 then
        if offset + 4 > (data.length : ℤ) then none
        else
          match readInt32BE data offset with
          | none => none
          | some iaLen => some (offset + 4 + iaLen * 4)
      else if tagType = 12 then
        if offset + 4 > (data.length : ℤ) then none
        else
          match readInt32BE data offset with
          | none => none
          | some laLen => some (offset + 4 + laLen * 8)
      else none

/-- Loop of `ChunkParser.skipNBTCompoundContents`; `iterations` mirrors the
source's per-call counter.  `none` models the `-1` failure return. -/
def skipCompoundGo (data : List ℕ) (fuel : ℕ) (offset : ℤ) (iterations : ℕ) : Option ℤ :=
  skipNBTGo data fuel (.compound offset iterations)

/-- List-element loop inside tag 9 of `skipNBTPayload`. -/
def skipListElems (data : List ℕ) (fuel : ℕ) (offset : ℤ) (listType : ℕ) (n : ℕ) : Option ℤ :=
  skipNBTGo data fuel (.listElems offset listType n)

/-- `ChunkParser.skipNBTPayload(data, offset, tagType)`. -/
def skipNBTPayload (data : List ℕ) (fuel : ℕ) (offset : ℤ) (tagType : ℕ) : Option ℤ :=
  skipNBTGo data fuel (.payload offset tagType)

/-- `ChunkParser.skipNBTCompoundContents(data, offset)`. -/
def skipNBTCompoundContents (data : List ℕ) (fuel : ℕ) (offset : ℤ) : Option ℤ :=
  skipCompoundGo data fuel offset 0

/-- `ChunkParser.parseAfterHeightmaps(data, offset)`. -/
def parseAfterHeightmaps (data : List ℕ) (offset : ℤ) : Option ParsedChunk :=
  match readVarInt data offset with
  | .error _ => none
  | .ok (dataSize, bytes) =>
    if dataSize ≤ 0 then none
    else
      let offset := offset + bytes
      if offset + dataSize > (data.length : ℤ) then none
      else
        let chunkData := (data.drop offset.toNat).take dataSize.toNat
        some ⟨parseSections chunkData⟩

/-- Strategy 1, `ChunkParser.tryParseWithNamedNBT`. -/
def tryParseWithNamedNBT (data : List ℕ) : Option ParsedChunk :=
  match readUInt8 data 0 with
  | none => none
  | some firstByte =>
    if firstByte ≠ 0x0A then none
    else if (1 : ℤ) + 2 > (data.length : ℤ) then none
    else
      match readUInt16BE data 1 with
      | none => none
      | some nameLen =>
        match skipNBTCompoundContents data (data.length + 10000) (3 + (nameLen : ℤ)) with
        | none => none
        | some off2 => parseAfterHeightmaps data off2

/-- Strategy 2, `ChunkParser.tryParseWithNamelessNBT`. -/
def tryParseWithNamelessNBT (data : List ℕ) : Option ParsedChunk :=
  match readUInt8 data 0 with
  | none => none
  | some firstByte =>
    if firstByte ≠ 0x0A then none
    else
      match skipNBTCompoundContents data (data.length + 10000) 1 with
      | none => none
      | some off2 => parseAfterHeightmaps data off2

/-- Strategy 3, source name `tryParseWithLengthPrefix`: a varint byte
length followed by that many bytes of tree data. -/
def tryParseWithVarIntLen (data : List ℕ) : Option ParsedChunk :=
  match readVarInt data 0 with
  | .error _ => none
  | .ok (len, bytes) =>
    if len ≤ 0 ∨ len > (data.length : ℤ) then none
    else
      let offset := (bytes : ℤ) + len
      if offset ≥ (data.length : ℤ) then none
      else parseAfterHeightmaps data offset

/-- `ChunkParser.parseChunkData(data)`: the three strategies in order
(statistics bookkeeping and logging omitted). -/
def parseChunkData (data : List ℕ) : Option ParsedChunk :=
  if data.length < 10 then none
  else
    match tryParseWithNamedNBT data with
    | some r => some r
    | none =>
      match tryParseWithNamelessNBT data with
      | some r => some r
      | none => tryParseWithVarIntLen data

/-- `ChunkParser.indexToCoords(index)`. -/
def indexToCoords (index : ℕ) : ℕ × ℕ × ℕ :=
  (index % 16, index / 256, index % 256 / 16)

/-! ### Paletted container, single-value branch (claim C8) -/

/-- C8 (amended).  For `bitsPerEntry = 0` the decoder reads one varint `v`
and one varint `dataLongs`, performs no validation of `dataLongs` (it
merely skips `dataLongs · 8` bytes in the returned offset), and produces
exactly `expectedEntries` copies of `v` with palette `[v]`. -/
theorem readPalettedContainer_zero_bits (data : List ℕ) (offset0 : ℤ)
    (expectedEntries : ℕ) (v dataLongs : ℤ) (n1 n2 : ℕ)
    (hlen : ¬ offset0 ≥ (data.length : ℤ))
    (hbyte : readUInt8 data offset0 = some 0)
    (hv : readVarInt data (offset0 + 1) = .ok (v, n1))
    (hd : readVarInt data (offset0 + 1 + (n1 : ℤ)) = .ok (dataLongs, n2)) :
    readPalettedContainer data offset0 expectedEntries =
      some ⟨[v], List.replicate expectedEntries v,
        offset0 + 1 + (n1 : ℤ) + (n2 : ℤ) + dataLongs * 8⟩ := by
  rw [readPalettedContainer, if_neg hlen, hbyte]
  simp only [hv, hd, if_pos rfl, if_true]

/-- Witness for C8 (amended) on the concrete container `[0, 5, 0]` with
`expectedEntries = 3`. -/
theorem readPalettedContainer_zero_bits_witness :
    (¬ (0 : ℤ) ≥ (([0, 5, 0] : List ℕ).length : ℤ) ∧
      readUInt8 [0, 5, 0] 0 = some 0 ∧
      readVarInt [0, 5, 0] (0 + 1) = .ok (5, 1) ∧
      readVarInt [0, 5, 0] (0 + 1 + (1 : ℤ)) = .ok (0, 1)) ∧
    readPalettedContainer [0, 5, 0] 0 3 =
      some ⟨[5], List.replicate 3 5, 0 + 1 + (1 : ℤ) + (1 : ℤ) + 0 * 8⟩ :=
  ⟨⟨by decide, by decide, by decide, by decide⟩,
    readPalettedContainer_zero_bits [0, 5, 0] 0 3 5 0 1 1
      (by decide) (by decide) (by decide) (by decide)⟩

/-- Counterexample to C8 as stated: a single-value container whose
`dataLongs` is `1` (not `0`) is **not** rejected — the decoder accepts it
and skips 8 bytes (`nextOffset = 11` even though the buffer has 3 bytes). -/
theorem readPalettedContainer_nonzero_dataLongs_accepted :
    readVarInt [0, 5, 1] 2 = .ok (1, 1) ∧
    readPalettedContainer [0, 5, 1] 0 4 = some ⟨[5], [5, 5, 5, 5], 11⟩ := by
  constructor
  · decide
  · decide

/-! ## World cache (`src/world-advanced.js`, class `WorldAdvanced`)

The `chunks` map stores `{x, z, sections, lastUpdate}`; `x`/`z` duplicate
the key and `lastUpdate` is a wall-clock timestamp never read by any of
the operations below, so a chunk record is modelled by its `sections`.
Logging and the `stats` counters are omitted.  `chunkBlocks` maps a chunk
key to a JavaScript `Set` of block keys, modelled as a duplicate-free
list. -/

abbrev ChunkKey := ℤ × ℤ

abbrev BlockKey := ℤ × ℤ × ℤ

/-- `WorldAdvanced.chunkKey(x, z)` (the string `"x,z"`). -/
def chunkKey (x z : ℤ) : ChunkKey := (x, z)

/-- `WorldAdvanced.blockKey(x, y, z)` (the string `"x,y,z"`). -/
def blockKey (x y z : ℤ) : BlockKey := (x, y, z)

structure WorldAdvanced where
  chunks : List (ChunkKey × List ParsedSection)
  blockCache : List (BlockKey × ℤ)
  chunkBlocks : List (ChunkKey × List BlockKey)

/-- The state built by the `WorldAdvanced` constructor. -/
def emptyWorld : WorldAdvanced := ⟨[], [], []⟩

/-- World-coordinate key of local index `i` in section `sectionIndex` of
chunk `(chunkX, chunkZ)`:
`(chunkX·16 + lx, (−4 + sectionIndex)·16 + ly, chunkZ·16 + lz)` with
`(lx, ly, lz) = indexToCoords i` (the source computes `baseY = sectionY·16`
with `sectionY = -4 + sectionIndex`). -/
def entryKey (chunkX chunkZ : ℤ) (sectionIndex i : ℕ) : BlockKey :=
  blockKey (chunkX * 16 + ((indexToCoords i).1 : ℤ))
    ((-4 + (sectionIndex : ℤ)) * 16 + ((indexToCoords i).2.1 : ℤ))
    (chunkZ * 16 + ((indexToCoords i).2.2 : ℤ))

/-- Index entries contributed by one section: for every index `i` with a
nonzero state id, its world key paired with the id. -/
def sectionEntries (chunkX chunkZ : ℤ) (sectionIndex : ℕ) (blockStates : List ℤ) :
    List (BlockKey × ℤ) :=
  blockStates.enum.filterMap (fun p =>
    if p.2 = 0 then none
    else some (entryKey chunkX chunkZ sectionIndex p.1, p.2))

/-- All index entries of `WorldAdvanced.indexChunkBlocks` (the source
skips null sections, but `parseSections` never produces one). -/
def indexEntries (chunkX chunkZ : ℤ) (sections : List ParsedSection) : List (BlockKey × ℤ) :=
  (sections.enum.map (fun q => sectionEntries chunkX chunkZ q.1 q.2.blockStates)).flatten

/-- `WorldAdvanced.indexChunkBlocks(chunkX, chunkZ, sections)`: each entry
is written into `blockCache` and its key added to the (shared, possibly
pre-existing) `chunkBlocks` set of this chunk. -/
def indexChunkBlocks (w : WorldAdvanced) (chunkX chunkZ : ℤ)
    (sections : List ParsedSection) : WorldAdvanced :=
  let ck := chunkKey chunkX chunkZ
  let oldSet := (mapFind? w.chunkBlocks ck).getD []
  let entries := indexEntries chunkX chunkZ sections
  { w with
    blockCache := entries.foldl (fun m e => mapSet e.1 e.2 m) w.blockCache
    chunkBlocks := mapSet ck (entries.foldl (fun s e => setAdd e.1 s) oldSet) w.chunkBlocks }

/-- `WorldAdvanced.storeChunk(chunkX, chunkZ, data)`. -/
def storeChunk (w : WorldAdvanced) (chunkX chunkZ : ℤ) (data : List ℕ) : WorldAdvanced :=
  match parseChunkData data with
  | none => w
  | some parsed =>
    let w1 := { w with chunks := mapSet (chunkKey chunkX chunkZ) parsed.sections w.chunks }
    indexChunkBlocks w1 chunkX chunkZ parsed.sections

/-- `WorldAdvanced.unloadChunk(chunkX, chunkZ)`. -/
def unloadChunk (w : WorldAdvanced) (chunkX chunkZ : ℤ) : WorldAdvanced :=
  let key := chunkKey chunkX chunkZ
  let chunks1 := mapErase key w.chunks
  match mapFind? w.chunkBlocks key with
  | some blockKeys =>
    { chunks := chunks1
      blockCache := blockKeys.foldl (fun m k => mapErase k m) w.blockCache
      chunkBlocks := mapErase key w.chunkBlocks }
  | none => { w with chunks := chunks1 }

/-- `WorldAdvanced.isChunkLoaded(chunkX, chunkZ)`. -/
def isChunkLoaded (w : WorldAdvanced) (chunkX chunkZ : ℤ) : Bool :=
  mapHas w.chunks (chunkKey chunkX chunkZ)

/-- Core of `WorldAdvanced.getBlock` after the three `Math.floor` calls:
`Math.floor(bx / 16)` on the integer `bx` is floor division (`Int.fdiv`). -/
def getBlockAtCell (w : WorldAdvanced) (bx byy bz : ℤ) : ℤ :=
  let chunkX := Int.fdiv bx 16
  let chunkZ := Int.fdiv bz 16
  if ¬ isChunkLoaded w chunkX chunkZ then -1
  else
    match mapFind? w.blockCache (blockKey bx byy bz) with
    | some blockStateId => blockStateId
    | none => 0

/-- `WorldAdvanced.getBlock(x, y, z)`: coordinates are JavaScript numbers,
modelled as rationals, floored on entry.  Every modeled caller of the
predicate family below (`isSolid`, `isWalkable`, …) passes integer
coordinates, on which `Math.floor` is the identity; those predicates are
therefore stated over `ℤ` and read cells through `getBlockAtCell`. -/
def getBlock (w : WorldAdvanced) (x y z : ℚ) : ℤ :=
  getBlockAtCell w ⌊x⌋ ⌊y⌋ ⌊z⌋

/-- `WorldAdvanced.isSolid(x, y, z)`.  The method takes no fourth
parameter in the source: call sites that pass a `pathfindingMode` flag
have the extra argument silently ignored by JavaScript. -/
def isSolid (w : WorldAdvanced) (x y z : ℤ) : Bool :=
  let blockId := getBlockAtCell w x y z
  if blockId = -1 then true
  else if blockId = 0 then false
  else (getBlockProperties blockId).solid

/-- `WorldAdvanced.isClimbable(x, y, z)`. -/
def isClimbable (w : WorldAdvanced) (x y z : ℤ) : Bool :=
  let blockId := getBlockAtCell w x y z
  if blockId ≤ 0 then false
  else (getBlockProperties blockId).climbable

/-- `WorldAdvanced.isFluid(x, y, z)`. -/
def isFluid (w : WorldAdvanced) (x y z : ℤ) : Bool :=
  let blockId := getBlockAtCell w x y z
  if blockId ≤ 0 then false
  else (getBlockProperties blockId).fluid

/-- `WorldAdvanced.isWalkable(x, y, z)` (no fourth parameter, as above). -/
def isWalkable (w : WorldAdvanced) (x y z : ℤ) : Bool :=
  let hasFloor := isSolid w x (y - 1) z
  let feetClear := ¬ isSolid w x y z
  let headClear := ¬ isSolid w x (y + 1) z
  hasFloor ∧ feetClear ∧ headClear

/-- `WorldAdvanced.canJump(x, y, z)`. -/
def canJump (w : WorldAdvanced) (x y z : ℤ) : Bool :=
  ¬ isSolid w x (y + 2) z

/-- Loop of `findFloorBelow`: `count` iterations remain, checking
`checkY` downwards. -/
def findFloorBelowGo (w : WorldAdvanced) (x z : ℤ) : ℤ → ℕ → ℤ
  | _, 0 => -1
  | checkY, count + 1 =>
    if isSolid w x checkY z then checkY + 1
    else findFloorBelowGo w x z (checkY - 1) count

/-- `WorldAdvanced.findFloorBelow(x, y, z, maxFall)`: scans `dy = 0..maxFall`
(all modeled callers pass integer coordinates, so `Math.floor(y) = y`). -/
def findFloorBelow (w : WorldAdvanced) (x y z : ℤ) (maxFall : ℕ) : ℤ :=
  findFloorBelowGo w x z y (maxFall + 1)

/-- The eight `(dx, dz)` offsets scanned by the wall-count loop of
`getMovementCost` (in source order: `dx` outer, `dz` inner, `(0,0)`
skipped). -/
def wallOffsets : List (ℤ × ℤ) :=
  [(-1, -1), (-1, 0), (-1, 1), (0, -1), (0, 1), (1, -1), (1, 0), (1, 1)]

/-- `WorldAdvanced.getMovementCost(x, y, z)`. -/
def getMovementCost (w : WorldAdvanced) (x y z : ℤ) : ℚ :=
  let cost : ℚ := 1 + (if isFluid w x y z then 2 else 0) +
    (if isFluid w x (y - 1) z then 3 / 2 else 0)
  let wallCount := (wallOffsets.filter
    (fun d => isSolid w (x + d.1) y (z + d.2))).length
  if wallCount = 0 then cost + 1 / 2 else cost

/-! ### World operation sequences and invariants (claims C2, C9, C10) -/

/-- One mutating operation of the world-cache interface. -/
inductive WorldOp : Type where
  | store (chunkX chunkZ : ℤ) (data : List ℕ) : WorldOp
  | unload (chunkX chunkZ : ℤ) : WorldOp

def applyOp (w : WorldAdvanced) : WorldOp → WorldAdvanced
  | .store cx cz data => storeChunk w cx cz data
  | .unload cx cz => unloadChunk w cx cz

/-- State after a sequence of operations applied to a fresh world. -/
def applyOps (ops : List WorldOp) : WorldAdvanced :=
  ops.foldl applyOp emptyWorld

/-- States the class can actually be in. -/
def Reachable (w : WorldAdvanced) : Prop := ∃ ops, w = applyOps ops

/-- The chunk that owns a block key. -/
def chunkOfKey (k : BlockKey) : ChunkKey := (Int.fdiv k.1 16, Int.fdiv k.2.2 16)


/-! ### Fold lemmas for the world maps -/

theorem mapFind?_foldSet_isSome {K V : Type} [DecidableEq K]
    (entries : List (K × V)) :
    ∀ (m : List (K × V)) (k : K),
    (mapFind? (entries.foldl (fun m e => mapSet e.1 e.2 m) m) k).isSome = true ↔
      (∃ e ∈ entries, e.1 = k) ∨ (mapFind? m k).isSome = true := by
  induction entries with
  | nil => simp
  | cons e es ih =>
    intro m k
    rw [List.foldl_cons, ih]
    by_cases h : k = e.1
    · simp [mapFind?_set, h]
    · have h2 : ¬ e.1 = k := fun he => h (Eq.symm he)
      simp [mapFind?_set, h, h2]

theorem mapFind?_foldSet_eq {K V : Type} [DecidableEq K]
    (entries : List (K × V)) :
    ∀ (m : List (K × V)) (k : K), (entries.map Prod.fst).Nodup →
    mapFind? (entries.foldl (fun m e => mapSet e.1 e.2 m) m) k =
      (mapFind? entries k <|> mapFind? m k) := by
  induction entries with
  | nil => simp [mapFind?]
  | cons e es ih =>
    intro m k hnd
    simp only [List.map_cons, List.nodup_cons] at hnd
    rw [List.foldl_cons, ih _ _ hnd.2]
    by_cases h : e.1 = k
    · have hnone : mapFind? es k = none := by
        rw [mapFind?_eq_none_iff]
        intro p hp hpk
        exact hnd.1 (by rw [← h, ← hpk] at *; exact List.mem_map_of_mem _ hp)
      simp [mapFind?, h, hnone, mapFind?_set, Option.orElse]
    · have h2 : ¬ k = e.1 := fun he => h (Eq.symm he)
      simp [mapFind?, h, mapFind?_set, h2, mapFind?_erase_ne e.1 k m h2]

theorem mem_foldl_setAdd {α V : Type} [DecidableEq α]
    (entries : List ((α × V))) :
    ∀ (s0 : List α) (x : α),
    x ∈ entries.foldl (fun s e => setAdd e.1 s) s0 ↔
      x ∈ s0 ∨ ∃ e ∈ entries, e.1 = x := by
  induction entries with
  | nil => simp
  | cons e es ih =>
    intro s0 x
    rw [List.foldl_cons, ih]
    have hadd : x ∈ setAdd e.1 s0 ↔ x ∈ s0 ∨ e.1 = x := by
      unfold setAdd
      split
      · rename_i hmem
        constructor
        · exact fun h => Or.inl h
        · rintro (h | h)
          · exact h
          · exact h ▸ hmem
      · constructor
        · intro h
          rcases List.mem_cons.mp h with h | h
          · exact Or.inr h.symm
          · exact Or.inl h
        · rintro (h | h)
          · exact List.mem_cons_of_mem _ h
          · exact h ▸ List.mem_cons_self _ _
    rw [hadd]
    constructor
    · rintro ((h | h) | h)
      · exact Or.inl h
      · exact Or.inr ⟨e, List.mem_cons_self _ _, h⟩
      · rcases h with ⟨f, hf, hfx⟩
        exact Or.inr ⟨f, List.mem_cons_of_mem _ hf, hfx⟩
    · rintro (h | ⟨f, hf, hfx⟩)
      · exact Or.inl (Or.inl h)
      · rcases List.mem_cons.mp hf with h | h
        · exact Or.inl (Or.inr (h ▸ hfx))
        · exact Or.inr ⟨f, h, hfx⟩

theorem mapFind?_foldErase {K V : Type} [DecidableEq K] (ks : List K) :
    ∀ (m : List (K × V)) (k : K),
    mapFind? (ks.foldl (fun m k => mapErase k m) m) k =
      if k ∈ ks then none else mapFind? m k := by
  induction ks with
  | nil => simp
  | cons a as ih =>
    intro m k
    rw [List.foldl_cons, ih]
    by_cases h1 : k ∈ as
    · simp [h1]
    · by_cases h2 : k = a
      · simp [h1, h2, mapFind?_erase_self]
      · simp [h1, h2, mapFind?_erase_ne _ _ _ h2]

/-! ### Index entries lie in their chunk -/

theorem fdiv_mul_add (c r : ℤ) (h0 : 0 ≤ r) (h1 : r < 16) :
    Int.fdiv (c * 16 + r) 16 = c := by
  rw [Int.fdiv_eq_ediv _ (by norm_num)]
  omega

theorem chunkOfKey_indexEntries (cx cz : ℤ) (sections : List ParsedSection) :
    ∀ e ∈ indexEntries cx cz sections, chunkOfKey e.1 = (cx, cz) := by
  intro e he
  simp only [indexEntries, List.mem_flatten, List.mem_map] at he
  rcases he with ⟨l, ⟨q, hq, rfl⟩, hel⟩
  simp only [sectionEntries, List.mem_filterMap] at hel
  rcases hel with ⟨p, hp, hpe⟩
  by_cases hz : p.2 = 0
  · simp [hz] at hpe
  · simp only [if_neg hz, Option.some.injEq] at hpe
    rw [← hpe]
    have hlx : (indexToCoords p.1).1 < 16 := Nat.mod_lt _ (by norm_num)
    have hlz : (indexToCoords p.1).2.2 < 16 := by
      have h256 : p.1 % 256 < 256 := Nat.mod_lt _ (by norm_num)
      simp only [indexToCoords]
      omega
    simp only [chunkOfKey, entryKey, blockKey]
    rw [fdiv_mul_add cx _ (by positivity) (by exact_mod_cast hlx),
      fdiv_mul_add cz _ (by positivity) (by exact_mod_cast hlz)]

/-- Invariant I1: every key tracked in `chunkBlocks[c]` lies inside chunk `c`. -/
def OwnInv (w : WorldAdvanced) : Prop :=
  ∀ c s, mapFind? w.chunkBlocks c = some s → ∀ k ∈ s, chunkOfKey k = c

/-- Invariant I2: the union of the `chunkBlocks` sets is the key set of
`blockCache`. -/
def UnionInv (w : WorldAdvanced) : Prop :=
  ∀ k, (∃ c s, mapFind? w.chunkBlocks c = some s ∧ k ∈ s) ↔
    (mapFind? w.blockCache k).isSome = true

/-! ### Invariant preservation -/

theorem inv_indexChunkBlocks (w : WorldAdvanced) (cx cz : ℤ) (sections : List ParsedSection)
    (h1 : OwnInv w) (h2 : UnionInv w) :
    OwnInv (indexChunkBlocks w cx cz sections) ∧
      UnionInv (indexChunkBlocks w cx cz sections) := by
  have hold : ∀ x ∈ (mapFind? w.chunkBlocks (chunkKey cx cz)).getD [],
      chunkOfKey x = chunkKey cx cz ∧
        ∃ c s, mapFind? w.chunkBlocks c = some s ∧ x ∈ s := by
    intro x hx
    cases hfb : mapFind? w.chunkBlocks (chunkKey cx cz) with
    | none => rw [hfb] at hx; simp at hx
    | some s0 =>
      rw [hfb] at hx
      simp only [Option.getD_some] at hx
      exact ⟨h1 _ _ hfb x hx, ⟨_, s0, hfb, hx⟩⟩
  constructor
  · intro c s hcs k hk
    simp only [indexChunkBlocks] at hcs
    rw [mapFind?_set] at hcs
    by_cases hc : c = chunkKey cx cz
    · rw [if_pos hc] at hcs
      injection hcs with hs0
      subst hs0
      rw [mem_foldl_setAdd] at hk
      rcases hk with hk | ⟨e, he, rfl⟩
      · exact hc ▸ (hold k hk).1
      · exact hc ▸ chunkOfKey_indexEntries cx cz sections e he
    · rw [if_neg hc] at hcs
      exact h1 c s hcs k hk
  · intro k
    simp only [indexChunkBlocks]
    rw [mapFind?_foldSet_isSome]
    constructor
    · rintro ⟨c, s, hcs, hk⟩
      rw [mapFind?_set] at hcs
      by_cases hc : c = chunkKey cx cz
      · rw [if_pos hc] at hcs
        injection hcs with hs0
        subst hs0
        rw [mem_foldl_setAdd] at hk
        rcases hk with hk | he
        · exact Or.inr ((h2 k).mp (hold k hk).2)
        · exact Or.inl he
      · rw [if_neg hc] at hcs
        exact Or.inr ((h2 k).mp ⟨c, s, hcs, hk⟩)
    · rintro (he | hs)
      · refine ⟨chunkKey cx cz,
          (indexEntries cx cz sections).foldl (fun s e => setAdd e.1 s)
            ((mapFind? w.chunkBlocks (chunkKey cx cz)).getD []), ?_, ?_⟩
        · rw [mapFind?_set, if_pos rfl]
        · rw [mem_foldl_setAdd]
          exact Or.inr he
      · rcases (h2 k).mpr hs with ⟨c, s, hcs, hk⟩
        by_cases hc : c = chunkKey cx cz
        · refine ⟨chunkKey cx cz,
            (indexEntries cx cz sections).foldl (fun s e => setAdd e.1 s)
              ((mapFind? w.chunkBlocks (chunkKey cx cz)).getD []), ?_, ?_⟩
          · rw [mapFind?_set, if_pos rfl]
          · rw [mem_foldl_setAdd]
            left
            rw [hc] at hcs
            rw [hcs]
            simpa using hk
        · exact ⟨c, s, by rw [mapFind?_set, if_neg hc]; exact hcs, hk⟩

theorem inv_unloadChunk (w : WorldAdvanced) (cx cz : ℤ)
    (h1 : OwnInv w) (h2 : UnionInv w) :
    OwnInv (unloadChunk w cx cz) ∧ UnionInv (unloadChunk w cx cz) := by
  cases hfb : mapFind? w.chunkBlocks (chunkKey cx cz) with
  | none =>
    constructor
    · intro c s hcs k hk
      simp only [unloadChunk, hfb] at hcs
      exact h1 c s hcs k hk
    · intro k
      simp only [unloadChunk, hfb]
      exact h2 k
  | some ks =>
    constructor
    · intro c s hcs k hk
      simp only [unloadChunk, hfb] at hcs
      rw [mapFind?_erase] at hcs
      by_cases hc : c = chunkKey cx cz
      · rw [if_pos hc] at hcs
        exact absurd hcs (by simp)
      · rw [if_neg hc] at hcs
        exact h1 c s hcs k hk
    · intro k
      simp only [unloadChunk, hfb]
      rw [mapFind?_foldErase]
      constructor
      · rintro ⟨c, s, hcs, hk⟩
        rw [mapFind?_erase] at hcs
        by_cases hc : c = chunkKey cx cz
        · rw [if_pos hc] at hcs
          exact absurd hcs (by simp)
        · rw [if_neg hc] at hcs
          have hks : k ∉ ks := by
            intro hin
            have hck := h1 _ _ hfb k hin
            have hcc := h1 c s hcs k hk
            exact hc (by rw [← hcc, hck])
          rw [if_neg hks]
          exact (h2 k).mp ⟨c, s, hcs, hk⟩
      · intro hsome
        by_cases hks : k ∈ ks
        · rw [if_pos hks] at hsome
          simp at hsome
        · rw [if_neg hks] at hsome
          rcases (h2 k).mpr hsome with ⟨c, s, hcs, hk⟩
          have hc : c ≠ chunkKey cx cz := by
            intro he
            rw [he, hfb] at hcs
            injection hcs with hs0
            subst hs0
            exact hks hk
          exact ⟨c, s, by rw [mapFind?_erase, if_neg hc]; exact hcs, hk⟩

theorem inv_storeChunk (w : WorldAdvanced) (cx cz : ℤ) (data : List ℕ)
    (h1 : OwnInv w) (h2 : UnionInv w) :
    OwnInv (storeChunk w cx cz data) ∧ UnionInv (storeChunk w cx cz data) := by
  cases hp : parseChunkData data with
  | none =>
    simp only [storeChunk, hp]
    exact ⟨h1, h2⟩
  | some parsed =>
    simp only [storeChunk, hp]
    exact inv_indexChunkBlocks _ cx cz parsed.sections h1 h2

theorem inv_applyOp (w : WorldAdvanced) (op : WorldOp)
    (h : OwnInv w ∧ UnionInv w) : OwnInv (applyOp w op) ∧ UnionInv (applyOp w op) := by
  cases op with
  | store cx cz data => exact inv_storeChunk w cx cz data h.1 h.2
  | unload cx cz => exact inv_unloadChunk w cx cz h.1 h.2

theorem inv_foldl (ops : List WorldOp) :
    ∀ w : WorldAdvanced, OwnInv w ∧ UnionInv w →
      OwnInv (ops.foldl applyOp w) ∧ UnionInv (ops.foldl applyOp w) := by
  induction ops with
  | nil => exact fun w h => h
  | cons op rest ih =>
    intro w h
    rw [List.foldl_cons]
    exact ih _ (inv_applyOp w op h)

theorem emptyWorld_inv : OwnInv emptyWorld ∧ UnionInv emptyWorld := by
  constructor
  · intro c s hcs
    simp [emptyWorld, mapFind?] at hcs
  · intro k
    constructor
    · rintro ⟨c, s, hcs, _⟩
      simp [emptyWorld, mapFind?] at hcs
    · intro h
      simp [emptyWorld, mapFind?] at h

theorem reachable_inv (w : WorldAdvanced) (h : Reachable w) :
    OwnInv w ∧ UnionInv w := by
  rcases h with ⟨ops, rfl⟩
  exact inv_foldl ops emptyWorld emptyWorld_inv

/-- C2.  After any sequence of `storeChunk` and `unloadChunk` operations
applied to an initially empty `WorldAdvanced`, the union of the sets in
`chunkBlocks.values()` equals the key set of `blockCache` (invariant I2). -/
theorem world_cache_union_invariant (ops : List WorldOp) (k : BlockKey) :
    (∃ c s, mapFind? (applyOps ops).chunkBlocks c = some s ∧ k ∈ s) ↔
      (mapFind? (applyOps ops).blockCache k).isSome = true :=
  (inv_foldl ops emptyWorld emptyWorld_inv).2 k


/-! ### getBlock (claim C3) -/

/-- C3.  `getBlock` floors its rational inputs, returns the sentinel `-1`
when chunk `(⌊x⌋ fdiv 16, ⌊z⌋ fdiv 16)` has no record in `chunks`, the
cached value when `blockCache` has the floored key, and `0` otherwise. -/
theorem getBlock_spec (w : WorldAdvanced) (x y z : ℚ) :
    (mapFind? w.chunks (chunkKey (Int.fdiv ⌊x⌋ 16) (Int.fdiv ⌊z⌋ 16)) = none →
      getBlock w x y z = -1) ∧
    (∀ v : ℤ, (mapFind? w.chunks (chunkKey (Int.fdiv ⌊x⌋ 16) (Int.fdiv ⌊z⌋ 16))).isSome = true →
      mapFind? w.blockCache (blockKey ⌊x⌋ ⌊y⌋ ⌊z⌋) = some v →
      getBlock w x y z = v) ∧
    ((mapFind? w.chunks (chunkKey (Int.fdiv ⌊x⌋ 16) (Int.fdiv ⌊z⌋ 16))).isSome = true →
      mapFind? w.blockCache (blockKey ⌊x⌋ ⌊y⌋ ⌊z⌋) = none →
      getBlock w x y z = 0) := by
  refine ⟨?_, ?_, ?_⟩
  · intro h
    simp [getBlock, getBlockAtCell, isChunkLoaded, mapHas, h]
  · intro v h1 h2
    simp [getBlock, getBlockAtCell, isChunkLoaded, mapHas, h1, h2]
  · intro h1 h2
    simp [getBlock, getBlockAtCell, isChunkLoaded, mapHas, h1, h2]

/-- A world with one loaded chunk `(0,0)` holding one cached block. -/
def exWorld : WorldAdvanced :=
  ⟨[(chunkKey 0 0, [])], [(blockKey 1 2 3, 7)], [(chunkKey 0 0, [blockKey 1 2 3])]⟩

/-- Witness for C3: a cached cell inside a loaded chunk is returned. -/
theorem getBlock_spec_witness :
    ((mapFind? exWorld.chunks
        (chunkKey (Int.fdiv ⌊(3 / 2 : ℚ)⌋ 16) (Int.fdiv ⌊(3 : ℚ)⌋ 16))).isSome = true ∧
      mapFind? exWorld.blockCache (blockKey ⌊(3 / 2 : ℚ)⌋ ⌊(2 : ℚ)⌋ ⌊(3 : ℚ)⌋) = some 7) ∧
    getBlock exWorld (3 / 2) 2 3 = 7 := by
  have hfx : ⌊(3 / 2 : ℚ)⌋ = 1 := by norm_num
  have hfy : ⌊(2 : ℚ)⌋ = 2 := by norm_num
  have hfz : ⌊(3 : ℚ)⌋ = 3 := by norm_num
  refine ⟨⟨?_, ?_⟩, (getBlock_spec exWorld (3 / 2) 2 3).2.1 7 ?_ ?_⟩ <;>
    rw [hfx] <;> first
      | (rw [hfy, hfz]; decide)
      | (rw [hfz]; decide)

/-! ### Pathfinding-mode flag (claim C4)

`WorldAdvanced.isSolid` and `WorldAdvanced.isWalkable` take exactly three
parameters in `src/world-advanced.js`; the `pathfindingMode` fourth
argument passed by `pathfinder-advanced.js` (e.g. `isWalkable(x, y, z,
true)`) is silently ignored by JavaScript, so "flag set" and "flag clear"
run the same code.  The repository README documents an applied fix in
which `isSolid(x, y, z, pathfindingMode)` returns `!pathfindingMode` for
unloaded cells and `isWalkable` returns `true`; the shipped code lacks
that parameter. -/

/-- C4, evaluated at the failing input: a cell of an unloaded chunk (here
`(0, 64, 0)` in a fresh world) is reported solid and not walkable by the
very calls the pathfinder makes with the flag set. -/
theorem pathfinding_mode_flag_ignored :
    getBlockAtCell emptyWorld 0 64 0 = -1 ∧
    isSolid emptyWorld 0 64 0 = true ∧
    isWalkable emptyWorld 0 64 0 = false := by
  refine ⟨by decide, by decide, by decide⟩

/-! ### unloadChunk no-op and frame condition (claim C10) -/

/-- C10.  Unloading a chunk with no record in `chunks` and no entry in
`chunkBlocks` leaves the world unchanged, and (in every reachable state)
`unloadChunk` never removes a `blockCache` key that belongs to a
different chunk. -/
theorem unloadChunk_noop_and_frame (w : WorldAdvanced) (cx cz : ℤ) (hr : Reachable w) :
    ((mapFind? w.chunks (chunkKey cx cz) = none ∧
      mapFind? w.chunkBlocks (chunkKey cx cz) = none) →
      unloadChunk w cx cz = w) ∧
    (∀ k : BlockKey, chunkOfKey k ≠ chunkKey cx cz →
      mapFind? (unloadChunk w cx cz).blockCache k = mapFind? w.blockCache k) := by
  constructor
  · rintro ⟨hc, hcb⟩
    simp only [unloadChunk, hcb]
    rw [mapErase_of_find?_none _ _ hc]
  · intro k hk
    cases hfb : mapFind? w.chunkBlocks (chunkKey cx cz) with
    | none => simp [unloadChunk, hfb]
    | some ks =>
      simp only [unloadChunk, hfb]
      rw [mapFind?_foldErase]
      have hks : k ∉ ks := by
        intro hin
        exact hk ((reachable_inv w hr).1 _ _ hfb k hin)
      rw [if_neg hks]

/-- Witness for C10 at the empty world and chunk `(0, 0)`. -/
theorem unloadChunk_noop_and_frame_witness :
    Reachable emptyWorld ∧
    (((mapFind? emptyWorld.chunks (chunkKey 0 0) = none ∧
      mapFind? emptyWorld.chunkBlocks (chunkKey 0 0) = none) →
      unloadChunk emptyWorld 0 0 = emptyWorld) ∧
    (∀ k : BlockKey, chunkOfKey k ≠ chunkKey 0 0 →
      mapFind? (unloadChunk emptyWorld 0 0).blockCache k =
        mapFind? emptyWorld.blockCache k)) :=
  ⟨⟨[], rfl⟩, unloadChunk_noop_and_frame emptyWorld 0 0 ⟨[], rfl⟩⟩


/-! ### Chunk re-store staleness (claim C9)

`storeChunk` replaces the `chunks` record and merges the new payload's
non-empty cells into `blockCache`; it never removes entries that an
earlier store of the same chunk put there.  The development below proves
the amended statement and exhibits the staleness on a concrete pair of
payloads. -/

theorem unpackPalettedData_length (data : List ℕ) (offset : ℤ) (longCount : ℤ)
    (bitsPerEntry : ℕ) (palette : List ℤ) (expectedEntries : ℕ) :
    (unpackPalettedData data offset longCount bitsPerEntry palette expectedEntries).length =
      expectedEntries := by
  simp [unpackPalettedData]

theorem unpackDirectData_length (data : List ℕ) (offset : ℤ) (longCount : ℤ)
    (bitsPerEntry : ℕ) (expectedEntries : ℕ) :
    (unpackDirectData data offset longCount bitsPerEntry expectedEntries).length =
      expectedEntries := by
  simp [unpackDirectData]

/-- Every successfully decoded paletted container has exactly
`expectedEntries` entries. -/
theorem readPalettedContainer_length (data : List ℕ) (offset0 : ℤ) (expectedEntries : ℕ)
    (pc : PalettedContainer) (h : readPalettedContainer data offset0 expectedEntries = some pc) :
    pc.data.length = expectedEntries := by
  rw [readPalettedContainer] at h
  split at h
  · exact absurd h (by simp)
  · split at h
    · exact absurd h (by simp)
    · split at h
      · dsimp only [] at h
        split at h
        · exact absurd h (by simp)
        · split at h
          · exact absurd h (by simp)
          · simp only [Option.some.injEq] at h
            subst h
            simp
      · split at h
        · dsimp only [] at h
          split at h
          · exact absurd h (by simp)
          · split at h
            · exact absurd h (by simp)
            · split at h
              · exact absurd h (by simp)
              · split at h
                · exact absurd h (by simp)
                · simp only [Option.some.injEq] at h
                  subst h
                  simp [unpackPalettedData]
        · dsimp only [] at h
          split at h
          · exact absurd h (by simp)
          · split at h
            · exact absurd h (by simp)
            · simp only [Option.some.injEq] at h
              subst h
              simp [unpackDirectData]

/-- Every section produced by `parseSection` has exactly 4096 block
states. -/
theorem parseSection_length (data : List ℕ) (offset : ℤ) (s : ParsedSection)
    (h : parseSection data offset = some s) : s.blockStates.length = 4096 := by
  rw [parseSection] at h
  split at h
  · exact absurd h (by simp)
  · split at h
    · exact absurd h (by simp)
    · split at h
      · exact absurd h (by simp)
      · rename_i bs hbs
        split at h
        · exact absurd h (by simp)
        · simp only [Option.some.injEq] at h
          subst h
          simpa using readPalettedContainer_length data (offset + 2) 4096 bs hbs

theorem parseSectionsLoop_length (data : List ℕ) :
    ∀ (fuel : ℕ) (offset : ℤ) (s : ParsedSection),
      s ∈ parseSectionsLoop data offset fuel → s.blockStates.length = 4096 := by
  intro fuel
  induction fuel with
  | zero => intro offset s hs; simp [parseSectionsLoop] at hs
  | succ n ih =>
    intro offset s hs
    rw [parseSectionsLoop] at hs
    split at hs
    · split at hs
      · simp at hs
      · rename_i s0 hs0
        rcases List.mem_cons.mp hs with rfl | hmem
        · exact parseSection_length data offset s hs0
        · exact ih _ s hmem
    · simp at hs

theorem parseAfterHeightmaps_length (data : List ℕ) (offset : ℤ) (parsed : ParsedChunk)
    (h : parseAfterHeightmaps data offset = some parsed) :
    ∀ s ∈ parsed.sections, s.blockStates.length = 4096 := by
  rw [parseAfterHeightmaps] at h
  split at h
  · exact absurd h (by simp)
  · split at h
    · exact absurd h (by simp)
    · dsimp only [] at h
      split at h
      · exact absurd h (by simp)
      · simp only [Option.some.injEq] at h
        subst h
        intro s hs
        simp only [parseSections] at hs
        exact parseSectionsLoop_length _ 24 0 s hs

theorem tryParseWithNamedNBT_length (data : List ℕ) (parsed : ParsedChunk)
    (h : tryParseWithNamedNBT data = some parsed) :
    ∀ s ∈ parsed.sections, s.blockStates.length = 4096 := by
  rw [tryParseWithNamedNBT] at h
  split at h
  · exact absurd h (by simp)
  · split at h
    · exact absurd h (by simp)
    · split at h
      · exact absurd h (by simp)
      · split at h
        · exact absurd h (by simp)
        · split at h
          · exact absurd h (by simp)
          · exact parseAfterHeightmaps_length _ _ _ h

theorem tryParseWithNamelessNBT_length (data : List ℕ) (parsed : ParsedChunk)
    (h : tryParseWithNamelessNBT data = some parsed) :
    ∀ s ∈ parsed.sections, s.blockStates.length = 4096 := by
  rw [tryParseWithNamelessNBT] at h
  split at h
  · exact absurd h (by simp)
  · split at h
    · exact absurd h (by simp)
    · split at h
      · exact absurd h (by simp)
      · exact parseAfterHeightmaps_length _ _ _ h

theorem tryParseWithVarIntLen_length (data : List ℕ) (parsed : ParsedChunk)
    (h : tryParseWithVarIntLen data = some parsed) :
    ∀ s ∈ parsed.sections, s.blockStates.length = 4096 := by
  rw [tryParseWithVarIntLen] at h
  split at h
  · exact absurd h (by simp)
  · split at h
    · exact absurd h (by simp)
    · dsimp only [] at h
      split at h
      · exact absurd h (by simp)
      · exact parseAfterHeightmaps_length _ _ _ h

/-- Every section of a successfully parsed chunk has exactly 4096 block
states. -/
theorem parseChunkData_length (data : List ℕ) (parsed : ParsedChunk)
    (h : parseChunkData data = some parsed) :
    ∀ s ∈ parsed.sections, s.blockStates.length = 4096 := by
  rw [parseChunkData] at h
  split at h
  · exact absurd h (by simp)
  · split at h
    · rename_i r hr
      simp only [Option.some.injEq] at h
      subst h
      exact tryParseWithNamedNBT_length _ _ hr
    · split at h
      · rename_i r hr
        simp only [Option.some.injEq] at h
        subst h
        exact tryParseWithNamelessNBT_length _ _ hr
      · exact tryParseWithVarIntLen_length _ _ h

/-- Within one section the world key determines the cell index. -/
theorem entryKey_inj_same (cx cz : ℤ) (si i j : ℕ)
    (h : entryKey cx cz si i = entryKey cx cz si j) : i = j := by
  simp only [entryKey, blockKey, indexToCoords, Prod.mk.injEq] at h
  omega

/-- Across sections, keys of in-range indices determine section and
index. -/
theorem entryKey_inj (cx cz : ℤ) (si sj i j : ℕ) (hi : i < 4096) (hj : j < 4096)
    (h : entryKey cx cz si i = entryKey cx cz sj j) : si = sj ∧ i = j := by
  simp only [entryKey, blockKey, indexToCoords, Prod.mk.injEq] at h
  omega

theorem filterMap_ite_shape {α β : Type} (P : α → Prop) [DecidablePred P] (g : α → β)
    (l : List α) :
    l.filterMap (fun a => if P a then none else some (g a)) =
      (l.filter (fun a => decide (¬ P a))).map g := by
  induction l with
  | nil => rfl
  | cons a l ih => by_cases h : P a <;> simp [h, ih]

theorem sectionEntries_keys_nodup (cx cz : ℤ) (si : ℕ) (bs : List ℤ) :
    ((sectionEntries cx cz si bs).map Prod.fst).Nodup := by
  have hrw : (sectionEntries cx cz si bs).map Prod.fst =
      (bs.enum.filter (fun p => decide (¬ p.2 = 0))).map
        (fun p => entryKey cx cz si p.1) := by
    rw [sectionEntries, List.map_filterMap,
      ← filterMap_ite_shape (fun p => p.2 = 0) (fun p => entryKey cx cz si p.1) bs.enum]
    congr 1
    funext p
    by_cases h : p.2 = 0 <;> simp [h]
  rw [hrw]
  apply List.Nodup.map_on
  · intro x hx y hy hxy
    have hx' := List.mem_of_mem_filter hx
    have hy' := List.mem_of_mem_filter hy
    have hij : x.1 = y.1 := entryKey_inj_same cx cz si x.1 y.1 hxy
    have hgx := List.mem_enum_iff_get?.mp hx'
    have hgy := List.mem_enum_iff_get?.mp hy'
    rw [hij] at hgx
    rw [hgx] at hgy
    exact Prod.ext hij (Option.some.inj hgy)
  · exact ((List.nodup_enum_map_fst bs).of_map).filter _

/-- Entries of a section come from in-range, nonzero cells. -/
theorem mem_sectionEntries (cx cz : ℤ) (si : ℕ) (bs : List ℤ) (e : BlockKey × ℤ)
    (he : e ∈ sectionEntries cx cz si bs) :
    ∃ i, i < bs.length ∧ e.1 = entryKey cx cz si i ∧ e.2 ≠ 0 := by
  simp only [sectionEntries, List.mem_filterMap] at he
  rcases he with ⟨p, hp, hpe⟩
  by_cases hz : p.2 = 0
  · simp [hz] at hpe
  · simp only [if_neg hz, Option.some.injEq] at hpe
    subst hpe
    refine ⟨p.1, ?_, rfl, hz⟩
    have hg := List.mem_enum_iff_get?.mp hp
    obtain ⟨hlt, -⟩ := List.get?_eq_some.mp hg
    exact hlt

theorem indexEntries_values_ne (cx cz : ℤ) (sections : List ParsedSection) :
    ∀ e ∈ indexEntries cx cz sections, e.2 ≠ 0 := by
  intro e he
  simp only [indexEntries, List.mem_flatten, List.mem_map] at he
  rcases he with ⟨l, ⟨q, hq, rfl⟩, hel⟩
  rcases mem_sectionEntries _ _ _ _ _ hel with ⟨i, -, -, hne⟩
  exact hne

/-- Keys of the index entries of a parsed chunk are pairwise distinct
(each section contributes distinct keys, and sections with 4096 cells
occupy disjoint y-slabs). -/
theorem indexEntries_keys_nodup (cx cz : ℤ) (sections : List ParsedSection)
    (hlen : ∀ s ∈ sections, s.blockStates.length = 4096) :
    ((indexEntries cx cz sections).map Prod.fst).Nodup := by
  rw [indexEntries, List.map_flatten, List.map_map, List.nodup_flatten]
  constructor
  · intro l hl
    rcases List.mem_map.mp hl with ⟨q, hq, rfl⟩
    exact sectionEntries_keys_nodup cx cz q.1 q.2.blockStates
  · rw [List.pairwise_map]
    have henum : (sections.enum.map Prod.fst).Nodup := List.nodup_enum_map_fst sections
    have hpw : sections.enum.Pairwise (fun a b => a.1 ≠ b.1) := List.pairwise_map.mp henum
    refine List.Pairwise.imp_of_mem ?_ hpw
    intro a b ha hb hne
    intro k hka hkb
    rcases List.mem_map.mp hka with ⟨e, he, rfl⟩
    rcases List.mem_map.mp hkb with ⟨f, hf, hfe⟩
    rcases mem_sectionEntries _ _ _ _ _ he with ⟨i, hi, hkeya, -⟩
    rcases mem_sectionEntries _ _ _ _ _ hf with ⟨j, hj, hkeyb, -⟩
    have hsa : a.2 ∈ sections := List.get?_mem (List.mem_enum_iff_get?.mp ha)
    have hsb : b.2 ∈ sections := List.get?_mem (List.mem_enum_iff_get?.mp hb)
    rw [hlen a.2 hsa] at hi
    rw [hlen b.2 hsb] at hj
    have hkk : entryKey cx cz a.1 i = entryKey cx cz b.1 j := by
      rw [← hkeya, ← hkeyb, hfe]
    exact hne (entryKey_inj cx cz a.1 b.1 i j hi hj hkk).1

/-- What `storeChunk` does on a successful parse (helper; the claim-level
statement is `storeChunk_spec` below). -/
theorem storeChunk_parts (w : WorldAdvanced) (cx cz : ℤ) (data : List ℕ)
    (parsed : ParsedChunk) (hp : parseChunkData data = some parsed) :
    mapFind? (storeChunk w cx cz data).chunks (chunkKey cx cz) = some parsed.sections ∧
    (∀ k, mapFind? (storeChunk w cx cz data).blockCache k =
      (mapFind? (indexEntries cx cz parsed.sections) k <|> mapFind? w.blockCache k)) ∧
    (∀ e ∈ indexEntries cx cz parsed.sections, e.2 ≠ 0) := by
  have hnd := indexEntries_keys_nodup cx cz parsed.sections (parseChunkData_length data parsed hp)
  simp only [storeChunk, hp]
  refine ⟨?_, ?_, indexEntries_values_ne cx cz parsed.sections⟩
  · simp [indexChunkBlocks, mapFind?_set]
  · intro k
    simp only [indexChunkBlocks]
    exact mapFind?_foldSet_eq _ _ k hnd

/-- First C9 payload: one section whose cell `(0, −64, 0)` holds state
id 7 (indirect palette `[0, 7]`, 8 bits per entry, one data long). -/
def payloadA : List ℕ :=
  [0x0A, 0, 0, 0] ++ [18] ++
    ([0, 1] ++ [8, 2, 0, 7, 1, 0, 0, 0, 0, 0, 0, 0, 1] ++ [0, 1, 0])

/-- Second C9 payload: one all-empty section (single-value palette 0). -/
def payloadB : List ℕ :=
  [0x0A, 0, 0, 0] ++ [8] ++ ([0, 0] ++ [0, 0, 0] ++ [0, 1, 0])

/-- The parse of `payloadB`. -/
def payloadBParsed : ParsedChunk :=
  ⟨[⟨0, List.replicate 4096 0, [0], 8⟩]⟩

/-- The 18-byte section payload inside `payloadA`. -/
def chunkA : List ℕ := (payloadA.drop 5).take 18

/-- Block states of `payloadA`: id 7 at index 0, else 0. -/
def bsA : List ℤ := unpackPalettedData chunkA 7 1 8 [0, 7] 4096

/-- The parse of `payloadA`. -/
def payloadAParsed : ParsedChunk := ⟨[⟨1, bsA, [0, 7], 18⟩]⟩

theorem parseChunkData_payloadB : parseChunkData payloadB = some payloadBParsed := by rfl

set_option maxRecDepth 16384 in
theorem parseChunkData_payloadA : parseChunkData payloadA = some payloadAParsed := by rfl

theorem bsA_get0 : bsA.get? 0 = some 7 := by
  simp only [bsA, unpackPalettedData]
  rw [List.get?_map, List.get?_range (by norm_num)]
  decide

theorem mapFind?_eq_some_of_mem {K V : Type} [DecidableEq K] :
    ∀ (l : List (K × V)), (l.map Prod.fst).Nodup →
      ∀ k v, (k, v) ∈ l → mapFind? l k = some v := by
  intro l
  induction l with
  | nil => intro _ k v hm; simp at hm
  | cons e es ih =>
    intro hnd k v hm
    simp only [List.map_cons, List.nodup_cons] at hnd
    rcases List.mem_cons.mp hm with he | hm2
    · rw [← he]
      simp [mapFind?]
    · have hkm : k ∈ es.map Prod.fst := List.mem_map_of_mem Prod.fst hm2
      have hne : ¬ e.1 = k := fun hk => hnd.1 (by rw [hk]; exact hkm)
      simp only [mapFind?, if_neg hne]
      exact ih hnd.2 k v hm2

theorem sectionEntries_replicate_zero (cx cz : ℤ) (si n : ℕ) :
    sectionEntries cx cz si (List.replicate n (0 : ℤ)) = [] := by
  rw [sectionEntries, List.filterMap_eq_nil]
  intro p hp
  have h2 : p.2 ∈ List.replicate n (0 : ℤ) :=
    List.get?_mem (List.mem_enum_iff_get?.mp hp)
  rw [List.eq_of_mem_replicate h2]
  simp

theorem indexEntries_single (cx cz : ℤ) (s : ParsedSection) :
    indexEntries cx cz [s] = sectionEntries cx cz 0 s.blockStates := by
  simp [indexEntries]

/-- C9 (amended).  On a successful parse, `storeChunk` replaces the
chunk's `chunks` record with the new sections, and afterwards a
`blockCache` lookup returns the new payload's entry for every non-empty
cell of the new payload and otherwise falls back to the PREVIOUS cache —
entries from an earlier store of the same chunk are never removed.  All
inserted entries carry a nonzero state id. -/
theorem storeChunk_spec (w : WorldAdvanced) (cx cz : ℤ) (data : List ℕ)
    (parsed : ParsedChunk) (hp : parseChunkData data = some parsed) :
    mapFind? (storeChunk w cx cz data).chunks (chunkKey cx cz) = some parsed.sections ∧
    (∀ k, mapFind? (storeChunk w cx cz data).blockCache k =
      (mapFind? (indexEntries cx cz parsed.sections) k <|> mapFind? w.blockCache k)) ∧
    (∀ e ∈ indexEntries cx cz parsed.sections, e.2 ≠ 0) :=
  storeChunk_parts w cx cz data parsed hp

theorem storeChunk_spec_witness :
    parseChunkData payloadB = some payloadBParsed ∧
    (mapFind? (storeChunk emptyWorld 0 0 payloadB).chunks (chunkKey 0 0) =
        some payloadBParsed.sections ∧
      (∀ k, mapFind? (storeChunk emptyWorld 0 0 payloadB).blockCache k =
        (mapFind? (indexEntries 0 0 payloadBParsed.sections) k <|>
          mapFind? emptyWorld.blockCache k)) ∧
      (∀ e ∈ indexEntries 0 0 payloadBParsed.sections, e.2 ≠ 0)) :=
  ⟨parseChunkData_payloadB,
    storeChunk_spec emptyWorld 0 0 payloadB payloadBParsed parseChunkData_payloadB⟩

/-- C9 counterexample: storing `payloadA` into chunk `(0, 0)` and then
re-storing the same chunk from `payloadB` — whose parse contributes NO
index entries at all — leaves the stale cache entry `(0, −64, 0) ↦ 7`
from the first store in place. -/
theorem storeChunk_restore_stale :
    indexEntries 0 0 payloadBParsed.sections = [] ∧
    parseChunkData payloadB = some payloadBParsed ∧
    mapFind? (storeChunk (storeChunk emptyWorld 0 0 payloadA) 0 0 payloadB).blockCache
      (blockKey 0 (-64) 0) = some 7 := by
  have hidxB : indexEntries 0 0 payloadBParsed.sections = [] := by
    show indexEntries 0 0 [⟨0, List.replicate 4096 0, [0], 8⟩] = []
    rw [indexEntries_single]
    exact sectionEntries_replicate_zero 0 0 0 4096
  refine ⟨hidxB, parseChunkData_payloadB, ?_⟩
  rw [(storeChunk_parts (storeChunk emptyWorld 0 0 payloadA) 0 0 payloadB payloadBParsed
      parseChunkData_payloadB).2.1 (blockKey 0 (-64) 0), hidxB]
  rw [show mapFind? ([] : List (BlockKey × ℤ)) (blockKey 0 (-64) 0) = none from rfl,
    Option.none_orElse]
  rw [(storeChunk_parts emptyWorld 0 0 payloadA payloadAParsed
      parseChunkData_payloadA).2.1 (blockKey 0 (-64) 0)]
  have hidxA : mapFind? (indexEntries 0 0 payloadAParsed.sections) (blockKey 0 (-64) 0) =
      some 7 := by
    show mapFind? (indexEntries 0 0 [⟨1, bsA, [0, 7], 18⟩]) (blockKey 0 (-64) 0) = some 7
    rw [indexEntries_single]
    have hkey : entryKey 0 0 0 0 = blockKey 0 (-64) 0 := by decide
    rw [← hkey]
    apply mapFind?_eq_some_of_mem _ (sectionEntries_keys_nodup 0 0 0 _)
    simp only [sectionEntries, List.mem_filterMap]
    refine ⟨(0, 7), ?_, by norm_num⟩
    exact List.mem_enum_iff_get?.mpr bsA_get0
  rw [hidxA, Option.some_orElse]

/-! ### Connection framing (claim C7)

`Connection.readPacket` wraps the whole frame parse in `try/catch` and
returns `null` from the `catch`; `handleData` then merely `break`s out of
its loop.  A varint overflow while reading the frame length is therefore
swallowed: the connection object is untouched (`connected` keeps its
value, no teardown happens) and the bad bytes stay in `buffer`.  The
model keeps the fields the framing code reads or writes (`buffer`,
`compressionThreshold`, `connected`); `zlib.inflateSync` is an oracle
parameter (`none` models a throw); `handlePacket` dispatch is modelled by
collecting the packets the loop delivers (its internal `try/catch`
swallows handler errors, so dispatch never alters the connection). -/

/-- JavaScript `Buffer.slice(start, end)`: negative indices count from the
end, then both are clamped to `[0, length]`. -/
def jsSlice (l : List ℕ) (start stop : ℤ) : List ℕ :=
  let n : ℤ := l.length
  let s := if start < 0 then max (n + start) 0 else min start n
  let e := if stop < 0 then max (n + stop) 0 else min stop n
  (l.take e.toNat).drop s.toNat

/-- JavaScript `Buffer.slice(start)` (no end argument). -/
def jsSliceFrom (l : List ℕ) (start : ℤ) : List ℕ :=
  let n : ℤ := l.length
  let s := if start < 0 then max (n + start) 0 else min start n
  l.drop s.toNat

/-- The `Connection` state touched by the framing code; the constructor
sets `buffer = Buffer.alloc(0)` and `compressionThreshold = -1`, and
`connected` is the teardown-observable flag. -/
structure Connection where
  buffer : List ℕ
  compressionThreshold : ℤ
  connected : Bool
  deriving DecidableEq, Repr

/-- Tail of `Connection.readPacket` after decompression: read the packet
id varint and return `{packetId, data}` (a throw is caught upstream and
becomes `none`). -/
def finishPacket (pd : List ℕ) (c : Connection) : Option (ℤ × List ℕ) × Connection :=
  match readVarInt pd 0 with
  | .error _ => (none, c)
  | .ok (pid, pbytes) => (some (pid, jsSliceFrom pd (pbytes : ℤ)), c)

/-- `Connection.readPacket()`: result plus the updated connection.  Every
`throw` inside the source `try` is a `(none, ·)` return here, with
whatever `this.buffer` assignment had already happened. -/
def readPacket (inflate : List ℕ → Option (List ℕ)) (c : Connection) :
    Option (ℤ × List ℕ) × Connection :=
  if c.buffer.length < 1 then (none, c)
  else
    match readVarInt c.buffer 0 with
    | .error _ => (none, c)
    | .ok (packetLength, lengthSize) =>
      if (c.buffer.length : ℤ) < (lengthSize : ℤ) + packetLength then (none, c)
      else
        let packetData := jsSlice c.buffer (lengthSize : ℤ) ((lengthSize : ℤ) + packetLength)
        let c1 : Connection := { c with buffer := jsSliceFrom c.buffer ((lengthSize : ℤ) + packetLength) }
        if c.compressionThreshold ≥ 0 then
          match readVarInt packetData 0 with
          | .error _ => (none, c1)
          | .ok (dataLength, dbytes) =>
            let pd2 := jsSliceFrom packetData (dbytes : ℤ)
            if dataLength > 0 then
              match inflate pd2 with
              | none => (none, c1)
              | some d => finishPacket d c1
            else finishPacket pd2 c1
        else finishPacket packetData c1

/-- Loop of `Connection.handleData`; the source `while` is bounded by a
fuel that the caller makes large enough for every terminating run (each
delivered packet consumes at least one buffered byte). -/
def handleDataGo (inflate : List ℕ → Option (List ℕ)) :
    ℕ → Connection → List (ℤ × List ℕ) → Connection × List (ℤ × List ℕ)
  | 0, c, acc => (c, acc)
  | fuel + 1, c, acc =>
    if 0 < c.buffer.length then
      match readPacket inflate c with
      | (none, c1) => (c1, acc)
      | (some pkt, c1) => handleDataGo inflate fuel c1 (acc ++ [pkt])
    else (c, acc)

/-- `Connection.handleData(data)`: append to the buffer, then read and
dispatch packets until `readPacket` yields `null` (or a caught error
breaks the loop). -/
def handleData (inflate : List ℕ → Option (List ℕ)) (c : Connection) (data : List ℕ) :
    Connection × List (ℤ × List ℕ) :=
  handleDataGo inflate (c.buffer.length + data.length + 1)
    { c with buffer := c.buffer ++ data } []

/-- C7 (amended).  When the frame-length varint of the buffered stream
errors (in particular the overflow `VarInt is too big`), `handleData`
swallows it: the bytes stay in `buffer`, no packet is dispatched, and the
connection is NOT torn down — `connected` (and the rest of the state) is
unchanged. -/
theorem handleData_overflow_swallowed (inflate : List ℕ → Option (List ℕ))
    (c : Connection) (data : List ℕ) (e : VarIntErr)
    (hov : readVarInt (c.buffer ++ data) 0 = .error e) :
    (handleData inflate c data).1.buffer = c.buffer ++ data ∧
    (handleData inflate c data).1.connected = c.connected ∧
    (handleData inflate c data).1.compressionThreshold = c.compressionThreshold ∧
    (handleData inflate c data).2 = [] := by
  have hrp : readPacket inflate { c with buffer := c.buffer ++ data } =
      (none, { c with buffer := c.buffer ++ data }) := by
    rw [readPacket]
    by_cases hb : ({ c with buffer := c.buffer ++ data } : Connection).buffer.length < 1
    · rw [if_pos hb]
    · rw [if_neg hb]
      have hbuf : ({ c with buffer := c.buffer ++ data } : Connection).buffer =
          c.buffer ++ data := rfl
      rw [hbuf, hov]
  rw [handleData, handleDataGo]
  by_cases hb : 0 < ({ c with buffer := c.buffer ++ data } : Connection).buffer.length
  · rw [if_pos hb, hrp]
    exact ⟨rfl, rfl, rfl, rfl⟩
  · rw [if_neg hb]
    exact ⟨rfl, rfl, rfl, rfl⟩

theorem handleData_overflow_swallowed_witness :
    readVarInt (([] : List ℕ) ++ [0x80, 0x80, 0x80, 0x80, 0x80]) 0 = .error .tooBig ∧
    ((handleData (fun _ => none) ⟨[], -1, true⟩ [0x80, 0x80, 0x80, 0x80, 0x80]).1.buffer =
        [] ++ [0x80, 0x80, 0x80, 0x80, 0x80] ∧
      (handleData (fun _ => none) ⟨[], -1, true⟩ [0x80, 0x80, 0x80, 0x80, 0x80]).1.connected =
        true ∧
      (handleData (fun _ => none) ⟨[], -1, true⟩ [0x80, 0x80, 0x80, 0x80, 0x80]).1.compressionThreshold = -1 ∧
      (handleData (fun _ => none) ⟨[], -1, true⟩ [0x80, 0x80, 0x80, 0x80, 0x80]).2 = []) :=
  ⟨by decide,
    handleData_overflow_swallowed (fun _ => none) ⟨[], -1, true⟩
      [0x80, 0x80, 0x80, 0x80, 0x80] .tooBig (by decide)⟩

/-- C7 counterexample: feeding a freshly connected `Connection` the
overflowing frame-length bytes `80 80 80 80 80` raises and swallows
`VarInt is too big`; the connection stays connected with the bytes still
buffered and nothing dispatched — the overflow is not fatal. -/
theorem varint_overflow_not_fatal :
    readVarInt [0x80, 0x80, 0x80, 0x80, 0x80] 0 = .error .tooBig ∧
    (handleData (fun _ => none) ⟨[], -1, true⟩ [0x80, 0x80, 0x80, 0x80, 0x80]).1.connected =
      true ∧
    (handleData (fun _ => none) ⟨[], -1, true⟩ [0x80, 0x80, 0x80, 0x80, 0x80]).1.buffer =
      [0x80, 0x80, 0x80, 0x80, 0x80] ∧
    (handleData (fun _ => none) ⟨[], -1, true⟩ [0x80, 0x80, 0x80, 0x80, 0x80]).2 = [] := by
  refine ⟨by decide, by decide, by decide, by decide⟩


/-! ### Movement controller (claim C6)

`MovementAdvanced` from `movement-advanced.js`.  Positions and physics
are JavaScript doubles; the model uses `ℚ` with the source's decimal
literals taken exactly, and routes the transcendental library calls
(`Math.sqrt`, `Math.cos`, `Math.sin`, `Math.atan2`, `Math.PI`) through an
oracle parameter `MathOracle` — every double produced by those calls is
some rational, and no claim below depends on which.  The pathfinder
object is likewise a parameter `fp` (`null` result ↦ `none`).  Output is
the list of `C2S_SET_PLAYER_POSITION_AND_ROTATION` packets sent during
the call; `client.emit`, logging and `client.rotation` are not
packet-relevant and are omitted.  `client.position = null` would make the
source throw on field access; the model returns the state unchanged there
(all modelled call sites guard it). -/

structure Vec3 where
  x : ℚ
  y : ℚ
  z : ℚ
  deriving DecidableEq, Repr

structure MathOracle where
  sqrt : ℚ → ℚ
  cos : ℚ → ℚ
  sin : ℚ → ℚ
  atan2 : ℚ → ℚ → ℚ
  pi : ℚ

/-- The `MovementAdvanced` fields read or written by `tick` and its
callees (`client.position` and `client.awaitingTeleport` live on the
client object in the source). -/
structure MoveState where
  position : Option Vec3
  awaitingTeleport : Bool
  isMoving : Bool
  targetPosition : Option Vec3
  path : List Vec3
  currentPathIndex : ℕ
  velocityY : ℚ
  onGround : Bool
  yaw : ℚ
  lastPosition : Vec3
  movementCooldown : ℕ
  stuckCounter : ℕ
  jumpQueued : Bool
  jumpCooldown : ℕ
  obstacleStage : ℕ
  lateralDirection : ℤ
  backupTicks : ℕ

/-- A sent `0x1E` set-player-position-and-rotation packet. -/
structure PosPacket where
  x : ℚ
  y : ℚ
  z : ℚ
  yaw : ℚ
  pitch : ℚ
  onGround : Bool
  deriving DecidableEq, Repr

/-- `MovementAdvanced.distance3D`. -/
def distance3D (o : MathOracle) (a b : Vec3) : ℚ :=
  o.sqrt ((a.x - b.x) ^ 2 + (a.y - b.y) ^ 2 + (a.z - b.z) ^ 2)

/-- `MovementAdvanced.sendPosition`: its own guard drops the packet when
awaiting a teleport or cooling down. -/
def sendPosition (s : MoveState) (x y z yaw pitch : ℚ) (g : Bool) : List PosPacket :=
  if s.awaitingTeleport ∨ 0 < s.movementCooldown then []
  else [⟨x, y, z, yaw, pitch, g⟩]

/-- `MovementAdvanced.stop()` (interval bookkeeping omitted). -/
def stopMoving (s : MoveState) : MoveState :=
  { s with isMoving := false, targetPosition := none, path := [], jumpQueued := false }

/-- `MovementAdvanced.calculatePath` (logging omitted; the pathfinder is
the oracle `fp`). -/
def calculatePath (fp : ℤ × ℤ × ℤ → ℤ × ℤ × ℤ → Option (List Vec3))
    (s : MoveState) : MoveState :=
  match s.targetPosition, s.position with
  | some tp, some pos =>
    let start := (⌊pos.x⌋, ⌊pos.y⌋, ⌊pos.z⌋)
    let goal := (⌊tp.x⌋, ⌊tp.y⌋, ⌊tp.z⌋)
    match fp start goal with
    | none => stopMoving s
    | some [] => stopMoving s
    | some p => { s with path := p, currentPathIndex := 0, stuckCounter := 0 }
  | _, _ => s

/-- `MovementAdvanced.performLateralMove`. -/
def performLateralMove (o : MathOracle) (s : MoveState) : MoveState × List PosPacket :=
  match s.position with
  | none => (s, [])
  | some cur =>
    let yawRad := s.yaw * o.pi / 180
    let strafeX := o.cos yawRad * (s.lateralDirection : ℚ) * (3 / 10)
    let strafeZ := o.sin yawRad * (s.lateralDirection : ℚ) * (3 / 10)
    let newX := cur.x + strafeX
    let newZ := cur.z + strafeZ
    let s1 := if s.stuckCounter % 5 = 0 then
        { s with lateralDirection := -s.lateralDirection } else s
    let s2 := { s1 with position := some ⟨newX, cur.y, newZ⟩ }
    (s2, sendPosition s2 newX cur.y newZ s2.yaw 0 s2.onGround)

/-- `MovementAdvanced.performBackup`. -/
def performBackup (o : MathOracle) (s : MoveState) : MoveState × List PosPacket :=
  match s.position with
  | none => (s, [])
  | some cur =>
    if s.backupTicks = 0 then (s, [])
    else
      let yawRad := s.yaw * o.pi / 180
      let backX := cur.x + o.sin yawRad * (1 / 5)
      let backZ := cur.z - o.cos yawRad * (1 / 5)
      let s1 := { s with position := some ⟨backX, cur.y, backZ⟩ }
      ({ s1 with backupTicks := s.backupTicks - 1 },
        sendPosition s1 backX cur.y backZ s1.yaw 0 s1.onGround)

/-- `MovementAdvanced.handleObstacle` (4-stage obstacle avoidance). -/
def handleObstacle (o : MathOracle) (fp : ℤ × ℤ × ℤ → ℤ × ℤ × ℤ → Option (List Vec3))
    (s : MoveState) : MoveState × List PosPacket :=
  if 5 ≤ s.stuckCounter ∧ s.stuckCounter < 16 then
    let s1 := if s.obstacleStage < 1 then { s with obstacleStage := 1 } else s
    (if s1.onGround then { s1 with jumpQueued := true } else s1, [])
  else if 16 ≤ s.stuckCounter ∧ s.stuckCounter < 31 then
    let s1 := if s.obstacleStage < 2 then { s with obstacleStage := 2 } else s
    performLateralMove o s1
  else if 31 ≤ s.stuckCounter ∧ s.stuckCounter < 46 then
    let s1 := if s.obstacleStage < 3 then
        { s with obstacleStage := 3, backupTicks := 15 } else s
    performBackup o s1
  else if 46 ≤ s.stuckCounter then
    let s1 := { s with stuckCounter := 0, obstacleStage := 0 }
    if s1.currentPathIndex + 1 < s1.path.length then
      ({ s1 with currentPathIndex := s1.currentPathIndex + 1 }, [])
    else (calculatePath fp s1, [])
  else (s, [])

/-- Player bounding box. -/
structure AABB where
  minX : ℚ
  maxX : ℚ
  minY : ℚ
  maxY : ℚ
  minZ : ℚ
  maxZ : ℚ
  deriving DecidableEq, Repr

/-- `MovementAdvanced.getPlayerAABB`. -/
def getPlayerAABB (pos : Vec3) : AABB :=
  ⟨pos.x - 3 / 10, pos.x + 3 / 10, pos.y, pos.y + 18 / 10, pos.z - 3 / 10, pos.z + 3 / 10⟩

/-- Inclusive integer range `lo..hi` of the source `for` loops. -/
def intRange (lo hi : ℤ) : List ℤ :=
  (List.range (hi + 1 - lo).toNat).map (fun i => lo + (i : ℤ))

/-- `MovementAdvanced.getCollisionBoxes`. -/
def getCollisionBoxes (w : WorldAdvanced) (aabb : AABB) : List AABB :=
  (intRange (⌊aabb.minX⌋ - 1) (⌊aabb.maxX⌋ + 1)).flatMap (fun x =>
    (intRange (⌊aabb.minY⌋ - 1) (⌊aabb.maxY⌋ + 1)).flatMap (fun y =>
      (intRange (⌊aabb.minZ⌋ - 1) (⌊aabb.maxZ⌋ + 1)).filterMap (fun z =>
        if isSolid w x y z then
          some ⟨(x : ℚ), (x : ℚ) + 1, (y : ℚ), (y : ℚ) + 1, (z : ℚ), (z : ℚ) + 1⟩
        else none)))

/-- `MovementAdvanced.sweepAxisX`. -/
def sweepAxisX (aabb : AABB) (boxes : List AABB) (dx0 : ℚ) : ℚ :=
  if dx0 = 0 then dx0
  else boxes.foldl (fun dx box =>
    if aabb.maxY > box.minY ∧ aabb.minY < box.maxY ∧ aabb.maxZ > box.minZ ∧
        aabb.minZ < box.maxZ then
      if dx > 0 ∧ aabb.maxX ≤ box.minX then min dx (box.minX - aabb.maxX)
      else if dx < 0 ∧ aabb.minX ≥ box.maxX then max dx (box.maxX - aabb.minX)
      else dx
    else dx) dx0

/-- `MovementAdvanced.sweepAxisZ`. -/
def sweepAxisZ (aabb : AABB) (boxes : List AABB) (dz0 : ℚ) : ℚ :=
  if dz0 = 0 then dz0
  else boxes.foldl (fun dz box =>
    if aabb.maxY > box.minY ∧ aabb.minY < box.maxY ∧ aabb.maxX > box.minX ∧
        aabb.minX < box.maxX then
      if dz > 0 ∧ aabb.maxZ ≤ box.minZ then min dz (box.minZ - aabb.maxZ)
      else if dz < 0 ∧ aabb.minZ ≥ box.maxZ then max dz (box.maxZ - aabb.minZ)
      else dz
    else dz) dz0

/-- `MovementAdvanced.sweepAxisY`. -/
def sweepAxisY (aabb : AABB) (boxes : List AABB) (dy0 : ℚ) : ℚ :=
  if dy0 = 0 then dy0
  else boxes.foldl (fun dy box =>
    if aabb.maxX > box.minX ∧ aabb.minX < box.maxX ∧ aabb.maxZ > box.minZ ∧
        aabb.minZ < box.maxZ then
      if dy > 0 ∧ aabb.maxY ≤ box.minY then min dy (box.minY - aabb.maxY)
      else if dy < 0 ∧ aabb.minY ≥ box.maxY then max dy (box.maxY - aabb.minY)
      else dy
    else dy) dy0

/-- `Math.sign`. -/
def qSign (q : ℚ) : ℚ := if q > 0 then 1 else if q < 0 then -1 else 0

/-- The source's yaw normalisation loops
`while (d > 180) d -= 360; while (d < -180) d += 360;` in closed form:
if `d > 180` the first loop subtracts `360·k` with the least `k` making
the result `≤ 180` (i.e. `k = ⌈(d−180)/360⌉ ≥ 1`, landing in
`(−180, 180]` so the second loop is a no-op); symmetrically for
`d < −180`; otherwise both loops are no-ops. -/
def normYaw (d : ℚ) : ℚ :=
  if d > 180 then d - 360 * ⌈(d - 180) / 360⌉
  else if d < -180 then d + 360 * ⌈(-d - 180) / 360⌉
  else d

/-- `MovementAdvanced.performMovement(waypoint)`.  Mutation order follows
the source: gravity, jump (reading the pre-jump `onGround` but writing
`onGround`/`velocity.y`), cooldown decrement, horizontal intent, X/Z
sweeps, the step-up retry (which keeps the raised `minY` and rebases
X/Z on the pre-raise box), Y sweep, position/yaw updates, send. -/
def performMovement (o : MathOracle) (w : WorldAdvanced) (s : MoveState) (waypoint : Vec3) :
    MoveState × List PosPacket :=
  match s.position with
  | none => (s, [])
  | some current =>
    let vy0 :=
      if ¬ s.onGround then
        let v1 := (s.velocityY - 8 / 100) * (98 / 100)
        if v1 < -(392 / 100) then -(392 / 100) else v1
      else if s.velocityY < 0 then 0 else s.velocityY
    let jumped := s.jumpQueued ∧ s.onGround ∧ s.jumpCooldown = 0
    let vy1 := if jumped then 42 / 100 else vy0
    let onGround1 := if jumped then false else s.onGround
    let jumpQueued1 := if jumped then false else s.jumpQueued
    let jumpCooldown1 : ℕ := if jumped then 10 else s.jumpCooldown
    let jumpCooldown2 := if 0 < jumpCooldown1 then jumpCooldown1 - 1 else jumpCooldown1
    let dx := waypoint.x - current.x
    let dz := waypoint.z - current.z
    let hDist := o.sqrt (dx * dx + dz * dz)
    let moveX := if hDist > 1 / 100 then dx * min ((4317 / 1000 * 50 / 1000) / hDist) 1 else 0
    let moveZ := if hDist > 1 / 100 then dz * min ((4317 / 1000 * 50 / 1000) / hDist) 1 else 0
    let aabb0 := getPlayerAABB current
    let boxes := getCollisionBoxes w aabb0
    let fmx0 := sweepAxisX aabb0 boxes moveX
    let aabb1 := { aabb0 with minX := aabb0.minX + fmx0, maxX := aabb0.maxX + fmx0 }
    let fmz0 := sweepAxisZ aabb1 boxes moveZ
    let aabb2 := { aabb1 with minZ := aabb1.minZ + fmz0, maxZ := aabb1.maxZ + fmz0 }
    let aabb3 :=
      if (|fmx0| < |moveX| * (1 / 2) ∨ |fmz0| < |moveZ| * (1 / 2)) ∧ onGround1 then
        let raised := { aabb2 with minY := aabb2.minY + 6 / 10, maxY := aabb2.maxY + 6 / 10 }
        let steppedBoxes := getCollisionBoxes w raised
        let stepX := sweepAxisX raised steppedBoxes moveX
        let stepZ := sweepAxisZ raised steppedBoxes moveZ
        if |stepX| > |fmx0| ∨ |stepZ| > |fmz0| then
          let a1 := { raised with
            minX := aabb2.minX + stepX
            maxX := aabb2.maxX + stepX
            minZ := aabb2.minZ + stepZ
            maxZ := aabb2.maxZ + stepZ }
          let landBoxes := getCollisionBoxes w a1
          let stepDown := sweepAxisY a1 landBoxes (-(6 / 10))
          { a1 with minY := a1.minY + stepDown, maxY := a1.maxY + stepDown }
        else aabb2
      else aabb2
    let finalBoxes := getCollisionBoxes w aabb3
    let fmy := sweepAxisY aabb3 finalBoxes vy1
    let vy2 := if fmy ≠ vy1 then 0 else vy1
    let newX := (aabb3.minX + aabb3.maxX) / 2
    let newY := aabb3.minY + fmy
    let newZ := (aabb3.minZ + aabb3.maxZ) / 2
    let onGround2 := fmy > vy1 ∧ vy1 < 0
    let yaw1 :=
      if hDist > 1 / 100 then
        let targetYaw := -(o.atan2 dx dz) * (180 / o.pi)
        let yd0 := normYaw (targetYaw - s.yaw)
        s.yaw + (if |yd0| > 18 then qSign yd0 * 18 else yd0)
      else s.yaw
    let s1 := { s with
      position := some ⟨newX, newY, newZ⟩
      velocityY := vy2
      onGround := onGround2
      jumpQueued := jumpQueued1
      jumpCooldown := jumpCooldown2
      yaw := yaw1
      lastPosition := ⟨newX, newY, newZ⟩ }
    (s1, sendPosition s1 newX newY newZ yaw1 0 onGround2)

/-- `MovementAdvanced.tick()`. -/
def tick (o : MathOracle) (fp : ℤ × ℤ × ℤ → ℤ × ℤ × ℤ → Option (List Vec3))
    (w : WorldAdvanced) (s : MoveState) : MoveState × List PosPacket :=
  if 0 < s.movementCooldown then
    let mc := s.movementCooldown - 1
    ({ s with
      movementCooldown := mc
      awaitingTeleport := if mc = 0 then false else s.awaitingTeleport }, [])
  else if s.awaitingTeleport then (s, [])
  else
    match s.position, s.targetPosition with
    | some pos, some tp =>
      if ¬ s.isMoving then (stopMoving s, [])
      else if distance3D o pos tp < 3 / 2 then (stopMoving s, [])
      else if s.path.length ≤ s.currentPathIndex then (calculatePath fp s, [])
      else
        match s.path.get? s.currentPathIndex with
        | none => (stopMoving s, [])
        | some waypoint =>
          if distance3D o pos waypoint < 7 / 10 then
            ({ s with currentPathIndex := s.currentPathIndex + 1, stuckCounter := 0 }, [])
          else
            let moveDist := distance3D o pos s.lastPosition
            let sp := if moveDist < 1 / 20 then
                handleObstacle o fp { s with stuckCounter := s.stuckCounter + 1 }
              else ({ s with stuckCounter := 0, obstacleStage := 0 }, [])
            let s1 := sp.1
            let s2 :=
              if s1.currentPathIndex + 1 < s1.path.length then
                match s1.path.get? (s1.currentPathIndex + 1), s1.position with
                | some next, some p1 =>
                  if next.y - p1.y > 1 / 2 ∧ s1.onGround then { s1 with jumpQueued := true }
                  else s1
                | _, _ => s1
              else s1
            let rp := performMovement o w s2 waypoint
            (rp.1, sp.2 ++ rp.2)
    | _, _ => (stopMoving s, [])

/-- C6.  If at the start of a tick the controller is awaiting a teleport
or still cooling down, `tick()` emits no position packet: the cooldown
branch decrements and returns, and the teleport branch returns, before
any send path is reached. -/
theorem tick_guard_no_packet (o : MathOracle)
    (fp : ℤ × ℤ × ℤ → ℤ × ℤ × ℤ → Option (List Vec3)) (w : WorldAdvanced)
    (s : MoveState) (h : s.awaitingTeleport = true ∨ 0 < s.movementCooldown) :
    (tick o fp w s).2 = [] := by
  by_cases hc : 0 < s.movementCooldown
  · rw [tick, if_pos hc]
  · rcases h with h | h
    · rw [tick, if_neg hc, h, if_pos rfl]
    · exact absurd h hc

/-- Guard state for the C6 witness. -/
def s6 : MoveState :=
  { position := none, awaitingTeleport := true, isMoving := false,
    targetPosition := none, path := [], currentPathIndex := 0, velocityY := 0,
    onGround := true, yaw := 0, lastPosition := ⟨0, 0, 0⟩, movementCooldown := 0,
    stuckCounter := 0, jumpQueued := false, jumpCooldown := 0, obstacleStage := 0,
    lateralDirection := 1, backupTicks := 0 }

theorem tick_guard_no_packet_witness :
    (s6.awaitingTeleport = true ∨ 0 < s6.movementCooldown) ∧
    (tick ⟨fun _ => 0, fun _ => 0, fun _ => 0, fun _ _ => 0, 0⟩ (fun _ _ => none)
      emptyWorld s6).2 = [] :=
  ⟨Or.inl rfl,
    tick_guard_no_packet ⟨fun _ => 0, fun _ => 0, fun _ => 0, fun _ _ => 0, 0⟩
      (fun _ _ => none) emptyWorld s6 (Or.inl rfl)⟩


/-! ### Pathfinder (claim C5)

`AdvancedPathfinder` from `pathfinder-advanced.js`, over the shipped
`world-advanced.js` predicates (the `pathfindingMode` arguments that the
pathfinder passes are ignored by the world methods — claim C4; and
`this.world.isLava` is `undefined` in `WorldAdvanced`, so every
`this.world.isLava && …` guard short-circuits to false and the lava
branches are dead code, omitted here).  Positions are integer cells.
All movement costs the source produces are exact multiples of `1/100`
(`getMovementCost` yields half-integers, the factors are `1.3`,
`1 + 0.2·fall`, `1.5`, `1.2`, and `+8.0`), so costs are carried as
integers scaled by `100` (`movementCost10` is `getMovementCost` scaled by
`10`).  `f = g + h` with `h = √(squared distance)`: nodes carry `g` and
the squared distance, and the heap comparator `a.f < b.f` is decided
exactly over the reals (`ltAddSqrt`); floats are modelled as exact
arithmetic throughout.  `Date.now()` timeouts become an oracle `tmo`
indexed by loop iteration.  The `while` loops get fuel that dominates
every terminating source run: the A* loop runs at most `maxNodes`
iterations (each non-returning iteration increments `nodesExpanded` and
the loop breaks at `maxNodes`), and `reconstructPath` at most one step
per `cameFrom` entry (on a cyclic `cameFrom` the source would not
return at all; the model then returns a truncated chain, which only
weakens no theorem below). -/

abbrev Cell := ℤ × ℤ × ℤ

/-- Squared Euclidean distance (`distance3D` squared; the source compares
`distance3D < 2` and `< 100`, decided here as `< 4` and `< 10000` on the
squares). -/
def sqDist (a b : Cell) : ℤ :=
  (a.1 - b.1) * (a.1 - b.1) + (a.2.1 - b.2.1) * (a.2.1 - b.2.1) +
    (a.2.2 - b.2.2) * (a.2.2 - b.2.2)

/-- `WorldAdvanced.getMovementCost` scaled by 10 (all its values are
multiples of `1/2`, so this is exact; see `movementCost10_spec`). -/
def movementCost10 (w : WorldAdvanced) (x y z : ℤ) : ℤ :=
  let cost : ℤ := 10 + (if isFluid w x y z then 20 else 0) +
    (if isFluid w x (y - 1) z then 15 else 0)
  let wallCount := (wallOffsets.filter
    (fun d => isSolid w (x + d.1) y (z + d.2))).length
  if wallCount = 0 then cost + 5 else cost

theorem movementCost10_spec (w : WorldAdvanced) (x y z : ℤ) :
    (movementCost10 w x y z : ℚ) = 10 * getMovementCost w x y z := by
  unfold movementCost10 getMovementCost
  dsimp only []
  split_ifs <;> push_cast <;> norm_num

/-- Exactly decides `a1 + √m1 < a2 + √m2` for integers with `m1, m2 ≥ 0`
(the heap comparator `a.f < b.f`, cleared of denominators). -/
def ltAddSqrt (a1 m1 a2 m2 : ℤ) : Bool :=
  let d := a2 - a1
  if d < 0 ∧ m2 < d * d then false
  else
    let L := m1 - m2 - d * d
    let R := 2 * d
    if L < 0 then
      if 0 ≤ R then true else decide (R * R * m2 < L * L)
    else
      if R ≤ 0 then false else decide (L * L < R * R * m2)

/-- Heap node: `{pos, g, h, f}` of the source with `g` scaled by 100 and
`h` carried as the squared distance. -/
structure ANode where
  pos : Cell
  g100 : ℤ
  d2 : ℤ
  deriving DecidableEq, Repr

/-- `a.f < b.f`: `g1/100 + √d1 < g2/100 + √d2 ⟺ g1 + √(10000·d1) <
g2 + √(10000·d2)`. -/
def cmpNode (a b : ANode) : Bool :=
  ltAddSqrt a.g100 (10000 * a.d2) b.g100 (10000 * b.d2)

def listSwap (l : List ANode) (i j : ℕ) : List ANode :=
  match l.get? i, l.get? j with
  | some a, some b => (l.set i b).set j a
  | _, _ => l

def hcmpAt (h : List ANode) (i j : ℕ) : Bool :=
  match h.get? i, h.get? j with
  | some a, some b => cmpNode a b
  | _, _ => false

/-- `MinHeap.bubbleUp`; the index strictly decreases, so `i + 1` fuel
suffices and the `0` case is unreachable. -/
def bubbleUpGo : ℕ → List ANode → ℕ → List ANode
  | 0, h, _ => h
  | f + 1, h, i =>
    if 0 < i then
      let p := (i - 1) / 2
      if hcmpAt h i p then bubbleUpGo f (listSwap h i p) p else h
    else h

/-- `MinHeap.insert`. -/
def heapInsert (h : List ANode) (n : ANode) : List ANode :=
  bubbleUpGo (h.length + 1) (h ++ [n]) h.length

/-- `MinHeap.bubbleDown`; the index strictly increases and stays below
the length, so `length` fuel suffices. -/
def bubbleDownGo : ℕ → List ANode → ℕ → List ANode
  | 0, h, _ => h
  | f + 1, h, i =>
    let l := 2 * i + 1
    let r := 2 * i + 2
    let s1 := if l < h.length ∧ hcmpAt h l i then l else i
    let s2 := if r < h.length ∧ hcmpAt h r s1 then r else s1
    if s2 ≠ i then bubbleDownGo f (listSwap h i s2) s2 else h

/-- `MinHeap.extract`. -/
def heapExtract (h : List ANode) : Option ANode × List ANode :=
  match h with
  | [] => (none, [])
  | [x] => (some x, [])
  | root :: rest =>
    match (root :: rest).getLast? with
    | none => (none, [])
    | some last =>
      (some root, bubbleDownGo (rest.length + 1) (((root :: rest).dropLast).set 0 last) 0)

/-- Fall loop of `tryMove` (`fall = 1..maxFallDistance`; `continue` when
the block below is not solid, otherwise add-and-break or break). -/
def fallLoop (w : WorldAdvanced) (fy tx tz : ℤ) : ℕ → ℕ → List (Cell × ℤ)
  | 0, _ => []
  | f + 1, fall =>
    let fdY := fy - (fall : ℤ)
    if ¬ isSolid w tx (fdY - 1) tz then fallLoop w fy tx tz f (fall + 1)
    else if isWalkable w tx fdY tz then
      [((tx, fdY, tz),
        2 * (5 + (fall : ℤ)) * movementCost10 w tx fdY tz +
          (if isFluid w tx fdY tz then 800 else 0))]
    else []

/-- `AdvancedPathfinder.tryMove(from, targetX, targetZ)`: the neighbors
it appends, in order (walk, jump, fall), with 100-scaled costs. -/
def tryMove (w : WorldAdvanced) (p : Cell) (tx tz : ℤ) : List (Cell × ℤ) :=
  (if isWalkable w tx p.2.1 tz then
    [((tx, p.2.1, tz),
      10 * movementCost10 w tx p.2.1 tz + (if isFluid w tx p.2.1 tz then 800 else 0))]
  else []) ++
  (if canJump w p.1 p.2.1 p.2.2 then
    (if isWalkable w tx (p.2.1 + 1) tz then
      [((tx, p.2.1 + 1, tz),
        13 * movementCost10 w tx (p.2.1 + 1) tz +
          (if isFluid w tx (p.2.1 + 1) tz then 800 else 0))]
    else [])
  else []) ++
  fallLoop w p.2.1 tx tz 3 1

/-- The eight horizontal directions of `getNeighbors`, in source order. -/
def dirOffsets : List (ℤ × ℤ) :=
  [(1, 0), (-1, 0), (0, 1), (0, -1), (1, 1), (1, -1), (-1, 1), (-1, -1)]

/-- `AdvancedPathfinder.getNeighbors(pos)`: the eight directions (with
the diagonal corner-cut check) through `tryMove`, then the climb moves. -/
def getNeighbors (w : WorldAdvanced) (p : Cell) : List (Cell × ℤ) :=
  (dirOffsets.flatMap (fun d =>
    if d.1.natAbs = 1 ∧ d.2.natAbs = 1 ∧
        (isSolid w (p.1 + d.1) p.2.1 p.2.2 ∨ isSolid w p.1 p.2.1 (p.2.2 + d.2)) then []
    else tryMove w p (p.1 + d.1) (p.2.2 + d.2))) ++
  (if isClimbable w p.1 p.2.1 p.2.2 then
    (if isWalkable w p.1 (p.2.1 + 1) p.2.2 ∨ isClimbable w p.1 (p.2.1 + 1) p.2.2 then
      [((p.1, p.2.1 + 1, p.2.2), 150)] else []) ++
    (if isClimbable w p.1 (p.2.1 - 1) p.2.2 then
      [((p.1, p.2.1 - 1, p.2.2), 120)] else [])
  else [])

/-- `AdvancedPathfinder.findNearbyWalkable(pos)` in source search order
(`dy = 0..2` skipping the center, then `dy = -1, -2`). -/
def findNearbyWalkable (w : WorldAdvanced) (p : Cell) : Option Cell :=
  (((([0, 1, 2] : List ℤ).flatMap (fun dy =>
      ([-1, 0, 1] : List ℤ).flatMap (fun dx =>
        ([-1, 0, 1] : List ℤ).filterMap (fun dz =>
          if dx = 0 ∧ dy = 0 ∧ dz = 0 then none
          else some (p.1 + dx, p.2.1 + dy, p.2.2 + dz))))) ++
    (([-1, -2] : List ℤ).flatMap (fun dy =>
      ([-1, 0, 1] : List ℤ).flatMap (fun dx =>
        ([-1, 0, 1] : List ℤ).map (fun dz =>
          (p.1 + dx, p.2.1 + dy, p.2.2 + dz))))))).find?
    (fun c => isWalkable w c.1 c.2.1 c.2.2)

/-- `AdvancedPathfinder.reconstructPath(cameFrom, current)`. -/
def reconstructPath (cf : List (Cell × Cell)) : ℕ → Cell → List Cell
  | 0, c => [c]
  | f + 1, c =>
    match mapFind? cf c with
    | none => [c]
    | some prev => reconstructPath cf f prev ++ [c]

/-- The A* search state (`openSet`, `closedSet`, `inOpenSet`, `cameFrom`,
`gScore`, `nodesExpanded`). -/
structure AState where
  openH : List ANode
  closed : List Cell
  inOpen : List Cell
  cameFrom : List (Cell × Cell)
  gScore : List (Cell × ℤ)
  expanded : ℕ

/-- Body of the `for (const neighbor of neighbors)` loop of `astar`. -/
def processNeighbor (cur : ANode) (goal : Cell) (st : AState) (nb : Cell × ℤ) : AState :=
  if nb.1 ∈ st.closed then st
  else
    let tg := cur.g100 + nb.2
    let better : Bool := match mapFind? st.gScore nb.1 with
      | none => true
      | some eg => tg < eg
    if better then
      let st1 := { st with
        cameFrom := mapSet nb.1 cur.pos st.cameFrom
        gScore := mapSet nb.1 tg st.gScore }
      if nb.1 ∈ st.inOpen then st1
      else { st1 with
        openH := heapInsert st1.openH ⟨nb.1, tg, sqDist nb.1 goal⟩
        inOpen := nb.1 :: st1.inOpen }
    else st

/-- The `while (!openSet.isEmpty())` loop of `astar`. -/
def astarGo (w : WorldAdvanced) (tmo : ℕ → Bool) (maxNodes : ℕ) (goal : Cell) :
    ℕ → ℕ → AState → Option (List Cell)
  | 0, _, _ => none
  | fuel + 1, iter, st =>
    if st.openH.isEmpty then none
    else if tmo iter then none
    else
      match heapExtract st.openH with
      | (none, _) => none
      | (some cur, rest) =>
        let st1 := { st with
          openH := rest
          inOpen := st.inOpen.filter (fun c => decide (c ≠ cur.pos)) }
        if cur.pos = goal ∨ sqDist cur.pos goal < 4 then
          some (reconstructPath st1.cameFrom (st1.cameFrom.length + 1) cur.pos)
        else
          let st2 := { st1 with
            closed := setAdd cur.pos st1.closed
            expanded := st1.expanded + 1 }
          if maxNodes ≤ st2.expanded then none
          else
            astarGo w tmo maxNodes goal fuel (iter + 1)
              ((getNeighbors w cur.pos).foldl (processNeighbor cur goal) st2)

/-- `AdvancedPathfinder.astar(start, goal)` (debug logging omitted; a
returned `null` is `none`). -/
def astar (w : WorldAdvanced) (tmo : ℕ → Bool) (maxNodes : ℕ) (start0 goal : Cell) :
    Option (List Cell) :=
  let start :=
    if ¬ isWalkable w start0.1 start0.2.1 start0.2.2 then
      match findNearbyWalkable w start0 with
      | some adj => adj
      | none => start0
    else start0
  astarGo w tmo maxNodes goal (maxNodes + 1) 0
    { openH := [⟨start, 0, sqDist start goal⟩], closed := [], inOpen := [start],
      cameFrom := [], gScore := [(start, 0)], expanded := 0 }

/-- Smallest `n` with `(50·n)² ≥ d2`, i.e. `Math.ceil(√d2 / 50)` exactly
(`steps` of `generateWaypoints` with `spacing = 50`). -/
def stepsForGo (d2 : ℕ) : ℕ → ℕ → ℕ
  | 0, n => n
  | f + 1, n => if d2 ≤ 2500 * n * n then n else stepsForGo d2 f (n + 1)

def stepsFor (d2 : ℕ) : ℕ := stepsForGo d2 (d2 + 1) 0

/-- Interpolated waypoint `i` of `steps`:
`Math.floor(start + (goal − start)·(i/steps))` equals
`start + fdiv ((goal − start)·i) steps` on integer endpoints. -/
def waypointAt (start goal : Cell) (steps : ℕ) (i : ℕ) : Cell :=
  (start.1 + Int.fdiv ((goal.1 - start.1) * i) steps,
   start.2.1 + Int.fdiv ((goal.2.1 - start.2.1) * i) steps,
   start.2.2 + Int.fdiv ((goal.2.2 - start.2.2) * i) steps)

/-- `AdvancedPathfinder.generateWaypoints(start, goal, 50)` with the
dynamic ground snapping. -/
def generateWaypoints (w : WorldAdvanced) (start goal : Cell) : List Cell :=
  let steps := stepsFor (sqDist start goal).toNat
  (List.range steps).map (fun j =>
    let wp := waypointAt start goal steps (j + 1)
    if isChunkLoaded w (Int.fdiv wp.1 16) (Int.fdiv wp.2.2 16) then
      let groundY := findFloorBelow w wp.1 (wp.2.1 + 5) wp.2.2 20
      if groundY ≠ -1 then (wp.1, groundY, wp.2.2) else wp
    else wp)

/-- Waypoint loop of `hierarchicalPath`: each successful segment is
concatenated whole (including its own start cell) and `current` becomes
the waypoint; on a failed segment the next waypoint is tried as a bypass,
else the partial path (or `null` if empty) is returned. -/
def hierPathGo (w : WorldAdvanced) (tmo : ℕ → Bool) :
    Cell → List Cell → List Cell → Option (List Cell)
  | _, fullPath, [] => some fullPath
  | current, fullPath, target :: rest =>
    match astar w tmo 10000 current target with
    | some (c :: cs) => hierPathGo w tmo target (fullPath ++ (c :: cs)) rest
    | _ =>
      match rest with
      | next :: rest2 =>
        match astar w tmo 15000 current next with
        | some (b :: bs) => hierPathGo w tmo next (fullPath ++ (b :: bs)) rest2
        | _ => if fullPath.isEmpty then none else some fullPath
      | [] => if fullPath.isEmpty then none else some fullPath

/-- `AdvancedPathfinder.hierarchicalPath(start, goal)`. -/
def hierarchicalPath (w : WorldAdvanced) (tmo : ℕ → Bool) (start goal : Cell) :
    Option (List Cell) :=
  hierPathGo w tmo start [] (generateWaypoints w start goal)

/-- `AdvancedPathfinder.findPath(start, goal)`:
`distance < 100 ⟺ sqDist < 10000`. -/
def findPath (w : WorldAdvanced) (tmo : ℕ → Bool) (start goal : Cell) :
    Option (List Cell) :=
  if sqDist start goal < 10000 then astar w tmo 20000 start goal
  else hierarchicalPath w tmo start goal

/-- The §4.9 adjacency predicate: `q` is one of the generated neighbors
of `p` (cardinal/diagonal walk, step-up jump, fall of 1..3, or climb). -/
def Adjacent (w : WorldAdvanced) (p q : Cell) : Prop :=
  ∃ nb ∈ getNeighbors w p, nb.1 = q

theorem reconstructPath_last (cf : List (Cell × Cell)) :
    ∀ fuel c, (reconstructPath cf fuel c).getLast? = some c := by
  intro fuel
  induction fuel with
  | zero => intro c; rfl
  | succ f ih =>
    intro c
    rw [reconstructPath]
    split
    · rfl
    · rw [List.getLast?_concat]

theorem reconstructPath_chain (cf : List (Cell × Cell)) :
    ∀ fuel c, (reconstructPath cf fuel c).Chain' (fun a b => mapFind? cf b = some a) := by
  intro fuel
  induction fuel with
  | zero => intro c; exact List.chain'_singleton c
  | succ f ih =>
    intro c
    rw [reconstructPath]
    split
    · exact List.chain'_singleton c
    · rename_i prev hprev
      rw [List.chain'_append]
      refine ⟨ih prev, List.chain'_singleton c, ?_⟩
      intro x hx y hy
      rw [reconstructPath_last cf f prev, Option.mem_def, Option.some.injEq] at hx
      simp only [List.head?_cons, Option.mem_def, Option.some.injEq] at hy
      rw [← hx, ← hy]
      exact hprev

/-- `cameFrom` edge invariant: every recorded parent is a generated
neighbor. -/
def CFInv (w : WorldAdvanced) (cf : List (Cell × Cell)) : Prop :=
  ∀ p q, mapFind? cf q = some p → Adjacent w p q

theorem processNeighbor_cameFrom (cur : ANode) (goal : Cell) (st : AState)
    (nb : Cell × ℤ) (p q : Cell)
    (h : mapFind? (processNeighbor cur goal st nb).cameFrom q = some p) :
    (p = cur.pos ∧ q = nb.1) ∨ mapFind? st.cameFrom q = some p := by
  unfold processNeighbor at h
  split at h
  · exact Or.inr h
  · dsimp only [] at h
    split at h
    · split at h
      · rw [mapFind?_set] at h
        by_cases hq : q = nb.1
        · rw [if_pos hq] at h
          exact Or.inl ⟨(Option.some.inj h).symm, hq⟩
        · rw [if_neg hq] at h
          exact Or.inr h
      · rw [mapFind?_set] at h
        by_cases hq : q = nb.1
        · rw [if_pos hq] at h
          exact Or.inl ⟨(Option.some.inj h).symm, hq⟩
        · rw [if_neg hq] at h
          exact Or.inr h
    · exact Or.inr h

theorem cfinv_fold (w : WorldAdvanced) (cur : ANode) (goal : Cell) :
    ∀ (l : List (Cell × ℤ)), (∀ nb ∈ l, Adjacent w cur.pos nb.1) →
      ∀ st : AState, CFInv w st.cameFrom →
        CFInv w ((l.foldl (processNeighbor cur goal) st).cameFrom) := by
  intro l
  induction l with
  | nil => intro _ st h; exact h
  | cons nb t ih =>
    intro hl st hst
    rw [List.foldl_cons]
    apply ih (fun x hx => hl x (List.mem_cons_of_mem _ hx))
    intro p q hq
    rcases processNeighbor_cameFrom cur goal st nb p q hq with ⟨hp, hq2⟩ | h
    · rw [hp, hq2]
      exact hl nb (List.mem_cons_self _ _)
    · exact hst p q h

theorem astarGo_sound (w : WorldAdvanced) (tmo : ℕ → Bool) (maxNodes : ℕ) (goal : Cell) :
    ∀ (fuel iter : ℕ) (st : AState) (path : List Cell), CFInv w st.cameFrom →
      astarGo w tmo maxNodes goal fuel iter st = some path →
      path.Chain' (Adjacent w) := by
  intro fuel
  induction fuel with
  | zero => intro iter st path _ h; exact absurd h (by simp [astarGo])
  | succ f ih =>
    intro iter st path hinv h
    rw [astarGo] at h
    split at h
    · exact absurd h (by simp)
    · split at h
      · exact absurd h (by simp)
      · split at h
        · exact absurd h (by simp)
        · rename_i cur rest heq
          dsimp only [] at h
          split at h
          · have hpath := Option.some.inj h
            have hch := reconstructPath_chain st.cameFrom (st.cameFrom.length + 1) cur.pos
            rw [← hpath]
            exact hch.imp (fun a b hab => hinv a b hab)
          · split at h
            · exact absurd h (by simp)
            · refine ih (iter + 1) _ path ?_ h
              exact cfinv_fold w cur goal (getNeighbors w cur.pos)
                (fun nb hnb => ⟨nb, hnb, rfl⟩) _ hinv

theorem astar_sound (w : WorldAdvanced) (tmo : ℕ → Bool) (maxNodes : ℕ)
    (start0 goal : Cell) (path : List Cell)
    (h : astar w tmo maxNodes start0 goal = some path) :
    path.Chain' (Adjacent w) := by
  rw [astar] at h
  exact astarGo_sound w tmo maxNodes goal (maxNodes + 1) 0 _ path
    (fun p q hq => by simp [mapFind?] at hq) h

/-- C5 (amended).  In the plain-A* regime (`distance3D(start, goal) <
100`, i.e. squared distance `< 10000`) every path `findPath` returns has
each consecutive pair of cells related by the neighbor-generation
predicate of `getNeighbors`.  The hierarchical long-range branch breaks
this: each concatenated segment starts again at its own start cell, so
segment junctions can repeat a cell (never a generated neighbor of
itself) — see the counterexample. -/
theorem findPath_short_sound (w : WorldAdvanced) (tmo : ℕ → Bool) (start goal : Cell)
    (path : List Cell) (hd : sqDist start goal < 10000)
    (h : findPath w tmo start goal = some path) :
    path.Chain' (Adjacent w) := by
  rw [findPath, if_pos hd] at h
  exact astar_sound w tmo 20000 start goal path h

theorem findPath_short_sound_witness :
    sqDist (0, 0, 0) (0, 0, 0) < 10000 ∧
    findPath emptyWorld (fun _ => false) (0, 0, 0) (0, 0, 0) = some [(0, 0, 0)] ∧
    ([((0 : ℤ), (0 : ℤ), (0 : ℤ))] : List Cell).Chain' (Adjacent emptyWorld) := by
  have h : findPath emptyWorld (fun _ => false) (0, 0, 0) (0, 0, 0) = some [(0, 0, 0)] := by
    decide
  exact ⟨by decide, h,
    findPath_short_sound emptyWorld (fun _ => false) (0, 0, 0) (0, 0, 0) _ (by decide) h⟩

/-- Executable test for a repeated consecutive cell in a path. -/
def hasDupPair : List Cell → Bool
  | a :: b :: t => (decide (a = b)) || hasDupPair (b :: t)
  | _ => false

/-- Counterexample world: a descending 1-cell-wide staircase of floor
blocks at `(0, -3k - 1, k)` for `k = 0..32`, so the walkable cells are
`(0, -3k, k)` and the only move from each is a 3-block fall forward to
the next; chunks `(0, 0)..(0, 2)` are loaded and empty (cells in any
other chunk read as the unloaded sentinel, i.e. solid). -/
def cexWorld : WorldAdvanced :=
  { chunks := (List.range 3).map (fun cz => (chunkKey 0 (cz : ℤ), [])),
    blockCache :=
      (List.range 33).map (fun k => (blockKey 0 (-(3 * (k : ℤ)) - 1) (k : ℤ), 1)),
    chunkBlocks := [] }

/-- The first hierarchical segment after its start cell: ten 3-block
falls down the staircase to the first snapped waypoint `(0, -30, 10)`. -/
def seg1Tail : List Cell := [(0, -3, 1), (0, -6, 2), (0, -9, 3), (0, -12, 4), (0, -15, 5), (0, -18, 6), (0, -21, 7), (0, -24, 8), (0, -27, 9), (0, -30, 10)]

/-- The second hierarchical segment after its start cell: eleven falls
from `(0, -30, 10)` to the second snapped waypoint `(0, -63, 21)`. -/
def seg2Tail : List Cell := [(0, -33, 11), (0, -36, 12), (0, -39, 13), (0, -42, 14), (0, -45, 15), (0, -48, 16), (0, -51, 17), (0, -54, 18), (0, -57, 19), (0, -60, 20), (0, -63, 21)]

/-- The third hierarchical segment after its start cell: eleven falls
from `(0, -63, 21)` to the goal `(0, -96, 32)`. -/
def seg3Tail : List Cell := [(0, -66, 22), (0, -69, 23), (0, -72, 24), (0, -75, 25), (0, -78, 26), (0, -81, 27), (0, -84, 28), (0, -87, 29), (0, -90, 30), (0, -93, 31), (0, -96, 32)]

/-- The waypoints generated for the long-range query (squared distance
10240, so 3 interpolation steps), each snapped to the staircase cell
found by `findFloorBelow` from 5 above the interpolated point. -/
theorem cex_waypoints : generateWaypoints cexWorld (0, 0, 0) (0, -96, 32) =
    [(0, -30, 10), (0, -63, 21), (0, -96, 32)] := by decide

set_option maxHeartbeats 40000000 in
theorem cex_seg1 : astar cexWorld (fun _ => false) 10000 (0, 0, 0) (0, -30, 10) =
    some ((0, 0, 0) :: seg1Tail) := by decide

set_option maxHeartbeats 40000000 in
theorem cex_seg2 : astar cexWorld (fun _ => false) 10000 (0, -30, 10) (0, -63, 21) =
    some ((0, -30, 10) :: seg2Tail) := by decide

set_option maxHeartbeats 40000000 in
theorem cex_seg3 : astar cexWorld (fun _ => false) 10000 (0, -63, 21) (0, -96, 32) =
    some ((0, -63, 21) :: seg3Tail) := by decide

/-- The full hierarchical result: all three segments succeed and are
concatenated whole, each later segment starting again at the waypoint
cell the previous one ended on. -/
theorem cex_findPath :
    findPath cexWorld (fun _ => false) (0, 0, 0) (0, -96, 32) =
      some ((((0, 0, 0) :: seg1Tail) ++ ((0, -30, 10) :: seg2Tail)) ++
        ((0, -63, 21) :: seg3Tail)) := by
  rw [findPath, if_neg (by decide), hierarchicalPath, cex_waypoints,
    hierPathGo.eq_2, cex_seg1]
  dsimp only []
  rw [hierPathGo.eq_2, cex_seg2]
  dsimp only []
  rw [hierPathGo.eq_3, cex_seg3]
  rfl

/-- Every candidate produced by `fallLoop` keeps the target column. -/
theorem fallLoop_fst (w : WorldAdvanced) (fy tx tz : ℤ) :
    ∀ fuel fall, ∀ e ∈ fallLoop w fy tx tz fuel fall, e.1.1 = tx ∧ e.1.2.2 = tz := by
  intro fuel
  induction fuel with
  | zero => intro fall e he; simp [fallLoop] at he
  | succ f ih =>
    intro fall e he
    rw [fallLoop] at he
    split at he
    · exact ih (fall + 1) e he
    · split at he
      · rw [List.mem_singleton] at he
        subst he
        exact ⟨rfl, rfl⟩
      · simp at he

/-- Every candidate produced by `tryMove` keeps the target column. -/
theorem tryMove_fst (w : WorldAdvanced) (p : Cell) (tx tz : ℤ) :
    ∀ e ∈ tryMove w p tx tz, e.1.1 = tx ∧ e.1.2.2 = tz := by
  intro e he
  unfold tryMove at he
  rcases List.mem_append.mp he with h1 | h2
  · rcases List.mem_append.mp h1 with hw | hj
    · split at hw
      · rw [List.mem_singleton] at hw
        subst hw
        exact ⟨rfl, rfl⟩
      · simp at hw
    · split at hj
      · split at hj
        · rw [List.mem_singleton] at hj
          subst hj
          exact ⟨rfl, rfl⟩
        · simp at hj
      · simp at hj
  · exact fallLoop_fst w p.2.1 tx tz 3 1 e h2

/-- No cell is ever its own generated neighbor: every horizontal move
displaces in x or z, and the climb moves displace in y. -/
theorem getNeighbors_ne (w : WorldAdvanced) (p : Cell) :
    ∀ nb ∈ getNeighbors w p, nb.1 ≠ p := by
  intro nb hnb
  unfold getNeighbors at hnb
  rcases List.mem_append.mp hnb with hbase | hclimb
  · rcases List.mem_flatMap.mp hbase with ⟨d, hd, hin⟩
    split at hin
    · simp at hin
    · have hf := tryMove_fst w p (p.1 + d.1) (p.2.2 + d.2) nb hin
      intro he
      rw [he] at hf
      have hd1 : d.1 = 0 := by omega
      have hd2 : d.2 = 0 := by omega
      obtain ⟨d1, d2⟩ := d
      simp only at hd1 hd2
      subst hd1
      subst hd2
      exact absurd hd (by decide)
  · split at hclimb
    · rcases List.mem_append.mp hclimb with hup | hdown
      · split at hup
        · rw [List.mem_singleton] at hup
          subst hup
          intro he
          have h2 := congrArg (fun c : Cell => c.2.1) he
          simp only at h2
          omega
        · simp at hup
      · split at hdown
        · rw [List.mem_singleton] at hdown
          subst hdown
          intro he
          have h2 := congrArg (fun c : Cell => c.2.1) he
          simp only at h2
          omega
        · simp at hdown
    · simp at hclimb

/-- A list with a repeated consecutive element is not a chain for any
irreflexive relation. -/
theorem hasDupPair_not_chain {R : Cell → Cell → Prop} (hirr : ∀ p, ¬ R p p) :
    ∀ l : List Cell, hasDupPair l = true → ¬ l.Chain' R
  | [] => by intro h; simp [hasDupPair] at h
  | [a] => by intro h; simp [hasDupPair] at h
  | a :: b :: t => by
    intro hdup hch
    rw [hasDupPair, Bool.or_eq_true] at hdup
    rw [List.chain'_cons] at hch
    rcases hdup with h1 | h2
    · have hab : a = b := of_decide_eq_true h1
      exact hirr b (hab ▸ hch.1)
    · exact hasDupPair_not_chain hirr (b :: t) h2 hch.2

/-- C5 counterexample.  `findPath` from `(0, 0, 0)` to `(0, -96, 32)` in
`cexWorld` takes the hierarchical branch (squared distance 10240 ≥
10000) and generates 3 waypoints, which snap onto the staircase cells
`(0, -30, 10)`, `(0, -63, 21)` and the goal.  Each per-waypoint A*
segment succeeds and is concatenated whole, and the loop then sets
`current = target`, so the next segment starts at the cell the previous
one ended on: the returned path repeats `(0, -30, 10)` (and
`(0, -63, 21)`) consecutively.  A cell is never its own generated
neighbor, so the returned path violates consecutive-cell adjacency. -/
theorem hierarchical_junction_not_adjacent :
    ∃ path, findPath cexWorld (fun _ => false) (0, 0, 0) (0, -96, 32) = some path ∧
      ¬ path.Chain' (Adjacent cexWorld) := by
  refine ⟨(((0, 0, 0) :: seg1Tail) ++ ((0, -30, 10) :: seg2Tail)) ++
    ((0, -63, 21) :: seg3Tail), cex_findPath, ?_⟩
  apply hasDupPair_not_chain ?_ _ ?_
  · intro p hp
    rcases hp with ⟨nb2, hnb2, he2⟩
    exact getNeighbors_ne cexWorld p nb2 hnb2 he2
  · decide

end MCBot
